import Mathlib

/-!
Verification development for the massivoto interpreter core: a shallow
embedding of the tokenless data model, the file/glob path literal parsers,
the reserved-argument instruction builder, and the tree-walking interpreter
(retry wrapper, forEach iteration, collect accumulation, goto resolution),
translated from `src/core-interpreter.ts`, `src/parser/instruction-parser.ts`
and `src/parser/file/file-path-parser.ts`.

External collaborators that are not part of the repository sources
(the `@massivoto/kit` scope-chain and context helpers, `lodash.set`, the
expression evaluator, the masala parser combinators) are modelled from the
specification's description of their contracts; each such definition says so
in its doc comment.
-/

namespace Massivoto

/-- Runtime values handled by the interpreter: JavaScript null, undefined,
booleans, numbers (integer-valued, which is all the verified properties
need), strings, arrays (sequences) and plain objects. -/
inductive Value where
  | vnull
  | vundefined
  | vbool (b : Bool)
  | vnum (n : Int)
  | vstr (s : String)
  | vseq (elems : List Value)
  | vobj (fields : List (String × Value))

/-- JavaScript truthiness, as used by `if (!conditionValue)` in the
interpreter. (NaN is not representable in the integer-valued number model.) -/
def truthy : Value → Bool
  | .vnull => false
  | .vundefined => false
  | .vbool b => b
  | .vnum n => n != 0
  | .vstr s => s != ""
  | .vseq _ => true
  | .vobj _ => true

/-- The type name used in the interpreter's fatal iteration error:
`iterable === null ? 'null' : typeof iterable` (core-interpreter.ts:691,784). -/
def jsTypeName : Value → String
  | .vnull => "null"
  | .vundefined => "undefined"
  | .vbool _ => "boolean"
  | .vnum _ => "number"
  | .vstr _ => "string"
  | .vseq _ => "object"
  | .vobj _ => "object"

/-- Whether a value is the JavaScript `undefined`, as tested by
`result.log?.value !== undefined` in the collect paths. -/
def isUndef : Value → Bool
  | .vundefined => true
  | _ => false

/-- Whether a value is an array, as tested by `Array.isArray(iterable)`. -/
def isArrayV : Value → Bool
  | .vseq _ => true
  | _ => false

/-- First-match association lookup, the behavior of `Map.get` once keys are
kept unique by `setAssoc`, and of plain object field access. -/
def lookupA {α : Type} (k : String) : List (String × α) → Option α
  | [] => none
  | (k2, v) :: rest => if k = k2 then some v else lookupA k rest

/-- Field access `v.type`, `v.target` on an object value; anything that is
not an object has no fields. -/
def getField (k : String) : Value → Option Value
  | .vobj fields => lookupA k fields
  | _ => none

/-! ## File and glob path literals (src/parser/file/file-path-parser.ts) -/

/-- Character class of the path literal regexes: `[a-zA-Z0-9_\-\.\/]`. -/
def isPathChar (c : Char) : Bool :=
  ('a' ≤ c && c ≤ 'z') || ('A' ≤ c && c ≤ 'Z') || ('0' ≤ c && c ≤ '9') ||
  c == '_' || c == '-' || c == '.' || c == '/'

/-- Character class of the glob regex tail: path characters plus `*`. -/
def isGlobChar (c : Char) : Bool :=
  isPathChar c || c == '*'

/-- R-FP-21: the file path regex `~\/[a-zA-Z0-9_\-\.\/]+` — a `~/` prefix
followed by one or more path characters (no `*` is possible since `*` is not
in the character class). -/
def filePathMatches (s : String) : Bool :=
  match s.toList with
  | '~' :: '/' :: rest => !rest.isEmpty && rest.all isPathChar
  | _ => false

/-- R-FP-22: the glob path regex `~\/[a-zA-Z0-9_\-\.\/]*\*[a-zA-Z0-9_\-\.\/\*]*`
— a `~/` prefix followed by allowed characters with at least one `*`.
(Splitting at the first `*` recovers the regex's exact shape.) -/
def globPathMatches (s : String) : Bool :=
  match s.toList with
  | '~' :: '/' :: rest => rest.all isGlobChar && rest.any (· == '*')
  | _ => false

/-- Occurrence of the substring `..`, as tested by `s.includes('..')`
(R-FP-24, the parse-time traversal check). -/
def hasDotDot : List Char → Bool
  | '.' :: '.' :: _ => true
  | _ :: rest => hasDotDot rest
  | [] => false

/-- R-FP-24 on strings. -/
def includesDotDot (s : String) : Bool := hasDotDot s.toList

/-- Whether the last character of a string is `/` — char-level model of
JavaScript `s.endsWith('/')`. -/
def endsWithSlash (s : String) : Bool :=
  match s.toList.getLast? with
  | some '/' => true
  | _ => false

/-- R-FP-25: `s.endsWith('/') ? s.slice(0, -1) : s` — strips exactly one
trailing separator. -/
def stripTrailingSlash (s : String) : String :=
  if endsWithSlash s then s.dropRight 1 else s

/-- `fileLiteralParser`: regex match, then the traversal filter, then the
trailing-slash normalization; `none` is a parse rejection. -/
def fileLiteralParser (s : String) : Option String :=
  if filePathMatches s && !includesDotDot s then some (stripTrailingSlash s)
  else none

/-- `globLiteralParser`: same pipeline over the glob regex. -/
def globLiteralParser (s : String) : Option String :=
  if globPathMatches s && !includesDotDot s then some (stripTrailingSlash s)
  else none

/-- Result node of `pathLiteralParser`. -/
inductive PathNode where
  | globLit (value : String)
  | fileLit (value : String)
deriving DecidableEq

/-- R-FP-23: glob tried first (more specific), file literal as fallback. -/
def pathLiteralParser (s : String) : Option PathNode :=
  match globLiteralParser s with
  | some v => some (.globLit v)
  | none =>
    match fileLiteralParser s with
    | some v => some (.fileLit v)
    | none => none

/-! ## Scope chain, data store and execution context -/

/-- Whether `t` is a prefix of `s`, char by char — model of JavaScript
`s.startsWith(t)`. -/
def listStartsWith : List Char → List Char → Bool
  | _, [] => true
  | [], _ :: _ => false
  | c :: cs, d :: ds => c == d && listStartsWith cs ds

/-- String-level wrapper for `listStartsWith`. -/
def strStartsWith (s t : String) : Bool :=
  listStartsWith s.toList t.toList

/-- One lexical frame of the scope chain: a name-to-value mapping. -/
abbrev Frame : Type := List (String × Value)

/-- Modelled from the spec: the scope chain is "a stack of lexical frames
used for variable lookup, innermost first" (kit's `ScopeChain`). The head of
the list is the innermost frame. -/
abbrev ScopeChain : Type := List Frame

/-- Insert-or-replace a binding in a frame, keeping the other bindings. -/
def writeFrame (k : String) (v : Value) : Frame → Frame
  | [] => [(k, v)]
  | (k2, v2) :: rest =>
    if k = k2 then (k, v) :: rest else (k2, v2) :: writeFrame k v rest

/-- Modelled from the spec: kit's `write` stores a name-to-value binding in
the innermost frame of the scope chain. -/
def write (k : String) (v : Value) : ScopeChain → ScopeChain
  | [] => [[(k, v)]]
  | f :: rest => writeFrame k v f :: rest

/-- Modelled from the spec: kit's `pushScope` pushes a fresh empty frame. -/
def pushScope (sc : ScopeChain) : ScopeChain := ([] : Frame) :: sc

/-- Modelled from the spec: kit's `popScope` discards the innermost frame. -/
def popScope : ScopeChain → ScopeChain
  | [] => []
  | _ :: rest => rest

/-- Modelled from the spec: scope-chain variable lookup, innermost frame
first, with no fallback to the data store. -/
def lookupScope (k : String) : ScopeChain → Option Value
  | [] => none
  | f :: rest =>
    match lookupA k f with
    | some v => some v
    | none => lookupScope k rest

/-- The global data store: "a tree addressable by dotted path". Interior
nodes are objects, leaves carry values. -/
inductive DataTree where
  | leaf (v : Value)
  | node (entries : List (String × DataTree))

/-- Insert-or-replace an entry of a data node's entry list. -/
def setChildEntries (k : String) (sub : DataTree) :
    List (String × DataTree) → List (String × DataTree)
  | [] => [(k, sub)]
  | (k2, v2) :: rest =>
    if k = k2 then (k, sub) :: rest else (k2, v2) :: setChildEntries k sub rest

/-- Insert-or-replace a child of a data node; a leaf in write position is
replaced by a fresh object, as `lodash.set` does. -/
def setChild (k : String) (sub : DataTree) : DataTree → DataTree
  | .leaf _ => .node [(k, sub)]
  | .node entries => .node (setChildEntries k sub entries)

/-- The existing child of a data node at a key, defaulting to an empty
object (as `lodash.set` creates intermediate objects along the path). -/
def childOrEmpty (k : String) : DataTree → DataTree
  | .leaf _ => .node []
  | .node entries =>
    match lookupA k entries with
    | some t => t
    | none => .node []

/-- Modelled from the documented semantics of `lodash.set`: write the value
at the dotted path, creating intermediate objects as needed, with no special
casing of any path segment. -/
def dataSet (t : DataTree) (path : List String) (v : Value) : DataTree :=
  match path with
  | [] => t
  | [k] => setChild k (.leaf v) t
  | k :: rest => setChild k (dataSet (childOrEmpty k t) rest v) t

/-- Observation helper: the value stored at a full dotted path, if the path
ends at a leaf. -/
def dataGet (path : List String) (t : DataTree) : Option Value :=
  match path, t with
  | [], .leaf v => some v
  | [], .node _ => none
  | k :: rest, .node entries =>
    match lookupA k entries with
    | some sub => dataGet rest sub
    | none => none
  | _ :: _, .leaf _ => none

/-- Dotted-path splitting used by `lodash.set` for targets such as
`data.user`: split the key on `.`. -/
def splitPathAux : List Char → List Char → List String
  | [], acc => [String.mk acc.reverse]
  | '.' :: rest, acc => String.mk acc.reverse :: splitPathAux rest []
  | c :: rest, acc => splitPathAux rest (c :: acc)

/-- Dotted-path splitting on strings. -/
def splitPath (s : String) : List String := splitPathAux s.toList []

/-- The execution context threaded between statements: the global data
store and the scope chain. (Environment variables and run metadata carry no
weight in the verified properties; `cloneExecutionContext` is the identity
in this pure model.) -/
structure Ctx where
  data : DataTree
  scopeChain : ScopeChain

/-- Output target namespace (`OutputTarget.namespace` in the source; `ns`
here because `namespace` is a Lean keyword). -/
inductive TargetNs where
  | scope
  | data
deriving DecidableEq

/-- Parsed output target. -/
structure OutputTarget where
  ns : TargetNs
  key : String
deriving DecidableEq

/-- `parseOutputTarget` (core-interpreter.ts:113): a `scope.`-prefixed
target addresses the scope chain with the prefix stripped; every other
target addresses the data store under the full key, with no special casing
of a `data.` prefix. -/
def parseOutputTarget (output : String) : OutputTarget :=
  if strStartsWith output "scope." then
    { ns := .scope, key := output.drop 6 }
  else
    { ns := .data, key := output }

/-- The write pattern the interpreter repeats at every output/collect site
(core-interpreter.ts:232-239, 473-478, 796-800, 864-869): scope targets go
through kit's `write`, data targets through `lodash.set` on the dotted
path. -/
def writeToTarget (key : String) (v : Value) (ctx : Ctx) : Ctx :=
  let target := parseOutputTarget key
  match target.ns with
  | .scope => { ctx with scopeChain := write target.key v ctx.scopeChain }
  | .data => { ctx with data := dataSet ctx.data (splitPath target.key) v }

/-- R-SYSVAR-63 (`writeSystemVariables`, core-interpreter.ts:139): inject
the seven `$`-prefixed system variables computed from the 0-based index and
the total length, in source order. -/
def writeSystemVariables (index : Nat) (length : Nat) (sc : ScopeChain) :
    ScopeChain :=
  let s1 := write "$index" (.vnum index) sc
  let s2 := write "$count" (.vnum (index + 1)) s1
  let s3 := write "$length" (.vnum length) s2
  let s4 := write "$first" (.vbool (index == 0)) s3
  let s5 := write "$last" (.vbool ((index : Int) == (length : Int) - 1)) s4
  let s6 := write "$odd" (.vbool ((index + 1) % 2 == 1)) s5
  write "$even" (.vbool ((index + 1) % 2 == 0)) s6

/-! ## Handler contract, logs and flow control -/

/-- The handler invocation contract: success flag, optional value
(`.vundefined` when absent), messages, optional fatal error, numeric cost. -/
structure HandlerResult where
  success : Bool
  value : Value
  messages : List String
  fatalError : Option String
  cost : Int

/-- One action log entry, with the fields the verified properties observe
(timestamps are real time and are left out). `value` is `.vundefined`
unless the instruction has `output`/`collect` and the call succeeded. -/
structure ActionLog where
  command : String
  success : Bool
  messages : List String
  fatalError : Option String
  cost : Int
  output : Option String
  value : Value

/-- Flow control signal from a statement execution. -/
inductive FlowControl where
  | cont
  | goto (target : String)
  | exit (code : Int)
  | ret (value : Value)

/-- Result of executing a single instruction (`StatementResult`). The
source types `log` as optional but `execute` always produces one. -/
structure StatementResult where
  context : Ctx
  flow : FlowControl
  log : ActionLog
  cost : Int

/-- Result of executing a statement list (`StatementListResult`). -/
structure SLOut where
  context : Ctx
  flow : FlowControl
  actions : List ActionLog
  cost : Int

/-- The external handler registry and handlers, as one oracle: given the
command id, the number of handler invocations performed so far in the run
(handlers are stateful across invocations), and the context snapshot, the
oracle yields either a thrown error or a handler result. Argument-map
evaluation is absorbed into the context parameter. -/
abbrev Oracle : Type := String → Nat → Ctx → Except String HandlerResult

/-- Whether an object value carries `type === tag`. -/
def isTagged (tag : String) (v : Value) : Bool :=
  match getField "type" v with
  | some (.vstr s) => s == tag
  | _ => false

/-- String content of an optional value, for reading `GotoResult.target`
(always a string when produced by the flow handlers). -/
def getStr : Option Value → String
  | some (.vstr s) => s
  | _ => ""

/-- Integer content of an optional value, for reading `ExitResult.code`. -/
def getInt : Option Value → Int
  | some (.vnum n) => n
  | _ => 0

/-- `determineFlowControl` (core-interpreter.ts:299): flow commands are
recognized by their command id and the `type` tag of their returned value;
everything else yields continue. -/
def determineFlowControl (commandId : String) (value : Value) : FlowControl :=
  if commandId = "@flow/goto" && isTagged "goto" value then
    .goto (getStr (getField "target" value))
  else if commandId = "@flow/exit" && isTagged "exit" value then
    .exit (getInt (getField "code" value))
  else if commandId = "@flow/return" && isTagged "return" value then
    .ret (match getField "value" value with
          | some v => v
          | none => .vundefined)
  else
    .cont

/-! ## Instruction and statement model -/

/-- An expression, as the interpreter sees it: the expression evaluator is
an external collaborator, so an evaluated expression is an opaque total
function from the execution context to a value. -/
abbrev Expr : Type := Ctx → Value

/-- `ForEachArgNode`: the iterable expression and the mapper's iterator
binding name. -/
structure ForEachModel where
  iterable : Expr
  iterator : String

/-- `InstructionNode`, with the fields the interpreter reads. `id` is the
resolved `@pkg/command` string, `output`/`collect` carry the target key
strings (`instruction.output?.value` / `instruction.collect?.value`). -/
structure InstrModel where
  id : String
  output : Option String
  collect : Option String
  condition : Option Expr
  forEach : Option ForEachModel
  retry : Option Expr
  label : Option String

/-- Statements: instructions or blocks. A block carries an optional
condition, an optional forEach, and its body. -/
inductive Stmt where
  | instr (ins : InstrModel)
  | block (condition : Option Expr) (forEach : Option ForEachModel)
      (body : List Stmt)

/-- `execute` (core-interpreter.ts:200): invoke the handler, write the
output target on success, build the action log and the flow signal. The
counter result is the updated handler-invocation count. A thrown handler
error is the `.error` case. -/
def execute (ins : InstrModel) (oracle : Oracle) (n : Nat) (ctx : Ctx) :
    (Except String StatementResult) × Nat :=
  match oracle ins.id n ctx with
  | .error e => (.error e, n + 1)
  | .ok result =>
    let hasOutput := ins.output.isSome && result.success
    let hasCollect := ins.collect.isSome && result.success
    let ctx2 :=
      match ins.output with
      | some key => if result.success then writeToTarget key result.value ctx else ctx
      | none => ctx
    let log : ActionLog :=
      { command := ins.id
        success := result.success
        messages := result.messages
        fatalError := result.fatalError
        cost := result.cost
        output := ins.output
        value := if hasOutput || hasCollect then result.value else .vundefined }
    let flow := determineFlowControl ins.id result.value
    (.ok { context := ctx2, flow := flow, log := log, cost := result.cost }, n + 1)

/-- The retry loop of `executeWithRetry` (core-interpreter.ts:281): try the
execution; on a thrown error, retry while attempts remain, and rethrow the
last error once the budget (`remaining`) is exhausted. A non-thrown result
— success flag true or false — returns immediately. -/
def retryGo (ins : InstrModel) (oracle : Oracle) (ctx : Ctx) :
    Nat → Nat → (Except String StatementResult) × Nat
  | remaining, n =>
    match execute ins oracle n ctx with
    | (.ok r, n2) => (.ok r, n2)
    | (.error e, n2) =>
      match remaining with
      | 0 => (.error e, n2)
      | r + 1 => retryGo ins oracle ctx r n2

/-- `executeWithRetry` (core-interpreter.ts:266): without a `retry`
argument, a single `execute`; with one, evaluate it (a non-number counts as
0) and run the retry loop with that budget. A negative budget makes the
source's `for` loop body run zero times and end on `throw lastError!` with
`lastError` unset, which throws the undefined value. -/
def executeWithRetry (ins : InstrModel) (oracle : Oracle) (n : Nat)
    (ctx : Ctx) : (Except String StatementResult) × Nat :=
  match ins.retry with
  | none => execute ins oracle n ctx
  | some rexpr =>
    let rv := rexpr ctx
    let maxRetries : Int :=
      match rv with
      | .vnum k => k
      | _ => 0
    if maxRetries < 0 then (.error "undefined", n)
    else retryGo ins oracle ctx maxRetries.toNat n

/-- The fatal error message for iterating a non-array
(core-interpreter.ts:692, 785). -/
def cannotIterateMsg (v : Value) : String :=
  "Cannot iterate over " ++ jsTypeName v ++ ". forEach requires an array."

/-- Ghost trace of per-element handler activity inside an instruction-level
forEach: for each element that passed the filter, its 0-based index, the
handler-invocation counter when its retry-wrapped execution started, and
the counter when it finished. -/
abbrev FETrace : Type := List (Nat × Nat × Nat)

/-- Prefix one instruction result's log and cost onto a later statement-list
result; a thrown error discards the accumulated entries, as an exception
unwinds past the local `actions` array. -/
def prependOne (log : ActionLog) (cost : Int) :
    Except String SLOut → Except String SLOut
  | .error e => .error e
  | .ok out =>
    .ok { context := out.context, flow := out.flow,
          actions := log :: out.actions, cost := cost + out.cost }

/-- Prefix an earlier statement-list result's logs and cost onto a later
one. -/
def prependSL (r : SLOut) : Except String SLOut → Except String SLOut
  | .error e => .error e
  | .ok out =>
    .ok { context := out.context, flow := out.flow,
          actions := r.actions ++ out.actions, cost := r.cost + out.cost }

/-- The per-element loop of `executeForEachInstruction`
(core-interpreter.ts:815): clone the context, push a scope frame, inject
the system variables from the original index and total length, bind the
iterator, filter on the per-item condition, run the retry-wrapped
execution, accumulate the log and (for defined values) the collect
accumulator, pop the frame, and propagate any non-continue flow before the
final collect write. The trailing components are the updated
handler-invocation counter and the ghost trace. -/
def feInstrGo (ins : InstrModel) (oracle : Oracle) (iterName : String)
    (length : Nat) :
    List Value → Nat → Ctx → Nat → List Value →
    (Except String SLOut) × Nat × FETrace
  | [], _, ctx, n, collected =>
    let ctxF :=
      match ins.collect with
      | some key => writeToTarget key (.vseq collected) ctx
      | none => ctx
    (.ok { context := ctxF, flow := .cont, actions := [], cost := 0 }, n, [])
  | item :: rest, index, ctx, n, collected =>
    let ctx1 : Ctx := { ctx with scopeChain := pushScope ctx.scopeChain }
    let sc2 := writeSystemVariables index length ctx1.scopeChain
    let sc3 := write iterName item sc2
    let ctx2 : Ctx := { ctx1 with scopeChain := sc3 }
    let pass :=
      match ins.condition with
      | some c => truthy (c ctx2)
      | none => true
    if pass then
      match executeWithRetry ins oracle n ctx2 with
      | (.error e, n2) => (.error e, n2, [(index, n, n2)])
      | (.ok r, n2) =>
        let collected2 :=
          if ins.collect.isSome && !isUndef r.log.value then
            collected ++ [r.log.value]
          else collected
        let ctx3 : Ctx :=
          { r.context with scopeChain := popScope r.context.scopeChain }
        match r.flow with
        | .cont =>
          let (restRes, n3, tr) :=
            feInstrGo ins oracle iterName length rest (index + 1) ctx3 n2
              collected2
          (prependOne r.log r.cost restRes, n3, (index, n, n2) :: tr)
        | flow =>
          (.ok { context := ctx3, flow := flow, actions := [r.log],
                 cost := r.cost }, n2, [(index, n, n2)])
    else
      let ctxP : Ctx := { ctx2 with scopeChain := popScope ctx2.scopeChain }
      feInstrGo ins oracle iterName length rest (index + 1) ctxP n collected

/-- `executeForEachInstruction` (core-interpreter.ts:773): evaluate the
iterable (a non-array is a fatal error before any iteration), special-case
the empty sequence (zero body executions, an empty sequence written to a
collect target), otherwise run the per-element loop. -/
def executeForEachInstruction (ins : InstrModel) (oracle : Oracle)
    (ctx : Ctx) (n : Nat) : (Except String SLOut) × Nat × FETrace :=
  match ins.forEach with
  | none => (.error "forEach missing", n, [])
  | some fe =>
    match fe.iterable ctx with
    | .vseq xs =>
      if xs.isEmpty then
        let ctxF :=
          match ins.collect with
          | some key => writeToTarget key (.vseq []) ctx
          | none => ctx
        (.ok { context := ctxF, flow := .cont, actions := [], cost := 0 },
         n, [])
      else feInstrGo ins oracle fe.iterator xs.length xs 0 ctx n []
    | v => (.error (cannotIterateMsg v), n, [])

/-- Ghost trace of body executions inside a block-level forEach: for each
element that passed the filter, its 0-based index, the scope chain the body
was entered with, and the body's raw result. -/
abbrev BTrace : Type := List (Nat × ScopeChain × Except String SLOut)

/-- The per-element loop of `executeForEachWithStatementList`
(core-interpreter.ts:709): per element, clone the context, push a frame,
inject the system variables from the original index and total length, bind
the iterator, filter on the block condition, run the whole body (the
`body` parameter stands for the recursive `executeStatementList` call on
the block body, with the handler-invocation counter threaded through), pop
the frame, and propagate any non-continue flow. -/
def feBlockGo (cond : Option Expr) (iterName : String)
    (body : Ctx → Nat → (Except String SLOut) × Nat) (length : Nat) :
    List Value → Nat → Ctx → Nat → (Except String SLOut) × Nat × BTrace
  | [], _, ctx, n =>
    (.ok { context := ctx, flow := .cont, actions := [], cost := 0 }, n, [])
  | item :: rest, index, ctx, n =>
    let ctx1 : Ctx := { ctx with scopeChain := pushScope ctx.scopeChain }
    let sc2 := writeSystemVariables index length ctx1.scopeChain
    let sc3 := write iterName item sc2
    let ctx2 : Ctx := { ctx1 with scopeChain := sc3 }
    let pass :=
      match cond with
      | some c => truthy (c ctx2)
      | none => true
    if pass then
      match body ctx2 n with
      | (.error e, n2) => (.error e, n2, [(index, sc3, .error e)])
      | (.ok r, n2) =>
        let ctx3 : Ctx :=
          { r.context with scopeChain := popScope r.context.scopeChain }
        match r.flow with
        | .cont =>
          let (restRes, n3, tr) :=
            feBlockGo cond iterName body length rest (index + 1) ctx3 n2
          (prependSL r restRes, n3, (index, sc3, .ok r) :: tr)
        | flow =>
          (.ok { context := ctx3, flow := flow, actions := r.actions,
                 cost := r.cost }, n2, [(index, sc3, .ok r)])
    else
      let ctxP : Ctx := { ctx2 with scopeChain := popScope ctx2.scopeChain }
      feBlockGo cond iterName body length rest (index + 1) ctxP n

/-- `executeForEachWithStatementList` (core-interpreter.ts:676): evaluate
the iterable (a non-array is a fatal error), special-case the empty
sequence (zero body executions), otherwise run the per-element loop. -/
def executeForEachWithStatementList (cond : Option Expr) (fe : ForEachModel)
    (body : Ctx → Nat → (Except String SLOut) × Nat) (ctx : Ctx) (n : Nat) :
    (Except String SLOut) × Nat × BTrace :=
  match fe.iterable ctx with
  | .vseq xs =>
    if xs.isEmpty then
      (.ok { context := ctx, flow := .cont, actions := [], cost := 0 }, n, [])
    else feBlockGo cond fe.iterator body xs.length xs 0 ctx n
  | v => (.error (cannotIterateMsg v), n, [])

/-! ## Label index and goto resolution -/

/-- R-BLK-02: the enhanced label index, a map from label name to the
structural path (child indices from the program root) of the labelled
instruction. -/
abbrev LabelIdx : Type := List (String × List Nat)

/-- `Map.set` semantics for the label index: replace an existing entry for
the key, otherwise append. -/
def setAssoc (k : String) (v : List Nat) : LabelIdx → LabelIdx
  | [] => [(k, v)]
  | (k2, v2) :: rest =>
    if k = k2 then (k, v) :: rest else (k2, v2) :: setAssoc k v rest

/-- The `walkStatements` closure of `buildEnhancedLabelIndex`
(core-interpreter.ts:166): record each labelled instruction's structural
path, recursing into block bodies. Labels can only appear on instructions
(R-BLK-03). -/
def walkStatements : List Stmt → List Nat → Nat → LabelIdx → LabelIdx
  | [], _, _, acc => acc
  | .instr ins :: rest, pathPre, i, acc =>
    let acc2 :=
      match ins.label with
      | some l => setAssoc l (pathPre ++ [i]) acc
      | none => acc
    walkStatements rest pathPre (i + 1) acc2
  | .block _ _ body :: rest, pathPre, i, acc =>
    let acc2 := walkStatements body (pathPre ++ [i]) 0 acc
    walkStatements rest pathPre (i + 1) acc2

/-- `buildEnhancedLabelIndex` (core-interpreter.ts:163). -/
def buildEnhancedLabelIndex (program : List Stmt) : LabelIdx :=
  walkStatements program [] 0 []

/-- `currentPath.every((v, idx) => labelPath[idx] === v)`: each entry of the
current path matches the label path at the same position (an out-of-range
access compares against `undefined` and fails). -/
def everyIndexMatches : List Nat → List Nat → Bool
  | [], _ => true
  | _ :: _, [] => false
  | v :: rest, w :: lrest => v == w && everyIndexMatches rest lrest

/-- Result of `resolveGoto`: a local jump with its index in the current
list, or a non-local signal that bubbles to the enclosing list. -/
inductive GotoRes where
  | localJump (index : Nat)
  | nonLocal
deriving DecidableEq

/-- `resolveGoto` (core-interpreter.ts:579): local exactly when the label's
path extends the current list's path by one segment; an unknown label is
non-local and is caught at the top level. (The source's extra root-level
branch is subsumed by the first check and kept here verbatim; the source
also receives the statement list as an argument but never reads it.) -/
def resolveGoto (target : String) (labelIdx : LabelIdx)
    (currentPath : List Nat) : GotoRes :=
  match lookupA target labelIdx with
  | none => .nonLocal
  | some labelPath =>
    let pathDepth := currentPath.length
    if labelPath.length = pathDepth + 1 &&
        everyIndexMatches currentPath labelPath then
      .localJump (labelPath.getD pathDepth 0)
    else if pathDepth = 0 && labelPath.length = 1 then
      .localJump (labelPath.getD 0 0)
    else
      .nonLocal

/-! ## Statement-list execution -/

/-- `executeStatementList` (core-interpreter.ts:411), as a fueled loop over
the statement index (`i`); fuel bounds the number of loop steps, so that
backward jumps — which the source lets loop forever — stay total here. The
`Nat` result is the threaded handler-invocation counter.

Per step: an instruction with `forEach` runs `executeForEachInstruction`;
an instruction otherwise is condition-filtered, retry-executed, gets its
single-result collect wrap (R-FILTER-101, only for a defined log value),
and its flow signal is handled (local goto resumes at the resolved index,
anything else non-continue bubbles); a block runs its body (through the
block-forEach loop when it has `forEach`, skipped whole when its condition
is falsy), then its flow signal is handled the same way. -/
def execSLGo (oracle : Oracle) (labelIdx : LabelIdx) (stmts : List Stmt)
    (currentPath : List Nat) :
    Nat → Nat → Ctx → Nat → (Except String SLOut) × Nat
  | 0, _, _, n => (.error "out of fuel", n)
  | fuel + 1, i, ctx, n =>
    match stmts[i]? with
    | none =>
      (.ok { context := ctx, flow := .cont, actions := [], cost := 0 }, n)
    | some (.instr ins) =>
      match ins.forEach with
      | some _ =>
        match executeForEachInstruction ins oracle ctx n with
        | (.error e, n2, _) => (.error e, n2)
        | (.ok r, n2, _) =>
          match r.flow with
          | .cont =>
            let (restRes, n3) :=
              execSLGo oracle labelIdx stmts currentPath fuel (i + 1)
                r.context n2
            (prependSL r restRes, n3)
          | flow =>
            (.ok { context := r.context, flow := flow, actions := r.actions,
                   cost := r.cost }, n2)
      | none =>
        let pass :=
          match ins.condition with
          | some c => truthy (c ctx)
          | none => true
        if pass then
          match executeWithRetry ins oracle n ctx with
          | (.error e, n2) => (.error e, n2)
          | (.ok r, n2) =>
            let ctx3 :=
              match ins.collect with
              | some key =>
                if !isUndef r.log.value then
                  writeToTarget key (.vseq [r.log.value]) r.context
                else r.context
              | none => r.context
            match r.flow with
            | .goto target =>
              match resolveGoto target labelIdx currentPath with
              | .localJump idx =>
                let (restRes, n3) :=
                  execSLGo oracle labelIdx stmts currentPath fuel idx ctx3 n2
                (prependOne r.log r.cost restRes, n3)
              | .nonLocal =>
                (.ok { context := ctx3, flow := .goto target,
                       actions := [r.log], cost := r.cost }, n2)
            | .cont =>
              let (restRes, n3) :=
                execSLGo oracle labelIdx stmts currentPath fuel (i + 1) ctx3
                  n2
              (prependOne r.log r.cost restRes, n3)
            | flow =>
              (.ok { context := ctx3, flow := flow, actions := [r.log],
                     cost := r.cost }, n2)
        else execSLGo oracle labelIdx stmts currentPath fuel (i + 1) ctx n
    | some (.block bcond bfe bbody) =>
      let blockRes :=
        match bfe with
        | some fe =>
          let (res, n2, _) :=
            executeForEachWithStatementList bcond fe
              (fun c m =>
                execSLGo oracle labelIdx bbody (currentPath ++ [i]) fuel 0 c
                  m)
              ctx n
          (res, n2)
        | none =>
          let bpass :=
            match bcond with
            | some c => truthy (c ctx)
            | none => true
          if bpass then
            execSLGo oracle labelIdx bbody (currentPath ++ [i]) fuel 0 ctx n
          else
            (.ok { context := ctx, flow := .cont, actions := [], cost := 0 },
             n)
      match blockRes with
      | (.error e, n2) => (.error e, n2)
      | (.ok r, n2) =>
        match r.flow with
        | .goto target =>
          match resolveGoto target labelIdx currentPath with
          | .localJump idx =>
            let (restRes, n3) :=
              execSLGo oracle labelIdx stmts currentPath fuel idx r.context
                n2
            (prependSL r restRes, n3)
          | .nonLocal =>
            (.ok { context := r.context, flow := .goto target,
                   actions := r.actions, cost := r.cost }, n2)
        | .cont =>
          let (restRes, n3) :=
            execSLGo oracle labelIdx stmts currentPath fuel (i + 1) r.context
              n2
          (prependSL r restRes, n3)
        | flow =>
          (.ok { context := r.context, flow := flow, actions := r.actions,
                 cost := r.cost }, n2)

/-- Exit status of a program run. -/
inductive ProgOutcome where
  | normal
  | earlyExit (code : Int)
  | returned (value : Value)

/-- The run result `executeProgram` produces: final context, exit signal,
ordered action log, total cost. -/
structure ProgResult where
  context : Ctx
  outcome : ProgOutcome
  actions : List ActionLog
  cost : Int

/-- `executeProgram` (core-interpreter.ts:327): build the label index, run
the top-level statement list, and dispatch on the final flow signal — a
goto that reaches the root unresolved is the fatal unknown-label error, not
a signal in the run result. -/
def executeProgram (fuel : Nat) (program : List Stmt) (ctx : Ctx)
    (oracle : Oracle) : (Except String ProgResult) × Nat :=
  let labelIdx := buildEnhancedLabelIndex program
  match execSLGo oracle labelIdx program [] fuel 0 ctx 0 with
  | (.error e, n) => (.error e, n)
  | (.ok r, n) =>
    match r.flow with
    | .goto target => (.error ("Unknown label: " ++ target), n)
    | .exit code =>
      (.ok { context := r.context, outcome := .earlyExit code,
             actions := r.actions, cost := r.cost }, n)
    | .ret v =>
      (.ok { context := r.context, outcome := .returned v,
             actions := r.actions, cost := r.cost }, n)
    | .cont =>
      (.ok { context := r.context, outcome := .normal,
             actions := r.actions, cost := r.cost }, n)

/-! ## Instruction grammar: reserved-argument extraction
(src/parser/instruction-parser.ts)

The token layer and the combinator library are external; each textual
argument parses to the same argument node wherever it sits on the line
(reserved keys are dedicated tokens that outrank identifiers), so the
parse of one instruction is the action reference plus the list of parsed
argument nodes in textual order. What the repository's grammar then does —
`createInstructionGrammar`'s final `map` — is fold that list into the
instruction node, which is what is modelled here. `E` stands for the
parsed expression node type. -/

/-- One parsed argument: a plain `name=expression` argument or one of the
six reserved arguments, each carrying what its dedicated parser extracts. -/
inductive ParsedArg (E : Type) where
  | plain (name : String) (value : E)
  | outputArg (target : String)
  | ifArg (condition : E)
  | forEachArg (iterable : E) (iterator : String)
  | labelArg (name : String)
  | retryArg (count : E)
  | collectArg (target : String)
deriving DecidableEq

/-- The instruction node the grammar produces. -/
structure InstrNodeP (E : Type) where
  action : String
  args : List (String × E)
  output : Option String
  condition : Option E
  forEach : Option (E × String)
  label : Option String
  retry : Option E
  collect : Option String

/-- The mutable accumulators of `createInstructionGrammar`'s argument
loop. -/
structure ArgFold (E : Type) where
  regularArgs : List (String × E)
  output : Option String
  condition : Option E
  forEach : Option (E × String)
  label : Option String
  retry : Option E
  collect : Option String

/-- Empty accumulators. -/
def argFoldInit (E : Type) : ArgFold E :=
  { regularArgs := [], output := none, condition := none, forEach := none,
    label := none, retry := none, collect := none }

/-- One step of the argument loop (instruction-parser.ts:225): a reserved
argument overwrites its slot, a plain argument is appended in order. -/
def stepArg {E : Type} (st : ArgFold E) : ParsedArg E → ArgFold E
  | .plain name value => { st with regularArgs := st.regularArgs ++ [(name, value)] }
  | .outputArg t => { st with output := some t }
  | .ifArg c => { st with condition := some c }
  | .forEachArg src it => { st with forEach := some (src, it) }
  | .labelArg l => { st with label := some l }
  | .retryArg c => { st with retry := some c }
  | .collectArg t => { st with collect := some t }

/-- The dedicated parse-time error for the `output`/`collect` clash
(instruction-parser.ts:245). -/
def outputCollectError : String :=
  "Cannot use both output= and collect= on the same instruction"

/-- `createInstructionGrammar`'s final `map` (instruction-parser.ts:204):
fold the argument list by type, then reject the instruction when both
`output` and `collect` were present (R-FILTER-103); otherwise build the
instruction node. -/
def buildInstruction {E : Type} (action : String) (allArgs : List (ParsedArg E)) :
    Except String (InstrNodeP E) :=
  let st := allArgs.foldl stepArg (argFoldInit E)
  if st.output.isSome && st.collect.isSome then
    .error outputCollectError
  else
    .ok { action := action, args := st.regularArgs, output := st.output,
          condition := st.condition, forEach := st.forEach,
          label := st.label, retry := st.retry, collect := st.collect }

/-- The reserved-argument type tag of a parsed argument (none for a plain
argument), used to state validity (no reserved argument repeated). -/
def rtag {E : Type} : ParsedArg E → Option Nat
  | .plain _ _ => none
  | .outputArg _ => some 0
  | .ifArg _ => some 1
  | .forEachArg _ _ => some 2
  | .labelArg _ => some 3
  | .retryArg _ => some 4
  | .collectArg _ => some 5

/-- The plain-argument part of a parsed argument. -/
def plainPart {E : Type} : ParsedArg E → Option (String × E)
  | .plain name value => some (name, value)
  | _ => none

/-- The reserved part of a parsed argument: the argument itself when it is
reserved. -/
def rsvPart {E : Type} : ParsedArg E → Option (ParsedArg E)
  | .plain _ _ => none
  | a => some a

/-! ## Theorems -/

/-- A path character is never `*`. -/
theorem isPathChar_ne_star {c : Char} (h : isPathChar c = true) : c ≠ '*' := by
  intro he
  subst he
  simp [isPathChar] at h

/-- C7: any path literal containing `..` is rejected at parse time by both
the file and the glob literal parser; exactly one trailing separator is
normalized away (`~/images/` parses to the value `~/images`, and `~/a//`
keeps its second-to-last slash); an accepted file literal starts with `~/`,
consists of path characters, and contains no `*`; an accepted glob literal
starts with `~/` and contains at least one `*`; both return the input with
one trailing slash stripped. -/
theorem path_literal_security :
    (∀ s : String, includesDotDot s = true →
      fileLiteralParser s = none ∧ globLiteralParser s = none) ∧
    fileLiteralParser "~/images/" = some "~/images" ∧
    fileLiteralParser "~/a//" = some "~/a/" ∧
    (∀ s r, fileLiteralParser s = some r →
      ∃ rest, s.toList = '~' :: '/' :: rest ∧ rest.all isPathChar = true ∧
        '*' ∉ s.toList ∧ r = stripTrailingSlash s) ∧
    (∀ s r, globLiteralParser s = some r →
      ∃ rest, s.toList = '~' :: '/' :: rest ∧ '*' ∈ s.toList ∧
        r = stripTrailingSlash s) := by
  refine ⟨?_, ?_, ?_, ?_, ?_⟩
  · intro s h
    constructor <;> simp [fileLiteralParser, globLiteralParser, h]
  · decide
  · decide
  · intro s r h
    unfold fileLiteralParser at h
    by_cases hc : (filePathMatches s && !includesDotDot s) = true
    · rw [if_pos hc] at h
      have hm : filePathMatches s = true := by
        simp only [Bool.and_eq_true] at hc
        exact hc.1
      unfold filePathMatches at hm
      match hl : s.toList with
      | [] => rw [hl] at hm; simp at hm
      | [c] =>
        rw [hl] at hm
        match c with
        | '~' => simp at hm
        | _ => simp_all [filePathMatches]
      | c :: d :: rest =>
        rw [hl] at hm
        by_cases hcd : c = '~' ∧ d = '/'
        · obtain ⟨h1, h2⟩ := hcd
          subst h1; subst h2
          simp only [Bool.and_eq_true] at hm
          refine ⟨rest, rfl, hm.2, ?_, ?_⟩
          · intro hmem
            simp only [List.mem_cons] at hmem
            rcases hmem with h1 | h1 | hmem
            · exact absurd h1 (by decide)
            · exact absurd h1 (by decide)
            · have := List.all_eq_true.mp hm.2 _ hmem
              exact absurd rfl (isPathChar_ne_star this)
          · injection h with h
            exact h.symm
        · exfalso
          revert hm
          match c, d with
          | '~', '/' => intro _; exact hcd ⟨rfl, rfl⟩
          | c, d => simp_all [filePathMatches]
    · rw [if_neg hc] at h
      exact absurd h (by simp)
  · intro s r h
    unfold globLiteralParser at h
    by_cases hc : (globPathMatches s && !includesDotDot s) = true
    · rw [if_pos hc] at h
      have hm : globPathMatches s = true := by
        simp only [Bool.and_eq_true] at hc
        exact hc.1
      unfold globPathMatches at hm
      match hl : s.toList with
      | [] => rw [hl] at hm; simp at hm
      | [c] =>
        rw [hl] at hm
        match c with
        | '~' => simp at hm
        | _ => simp_all [globPathMatches]
      | c :: d :: rest =>
        rw [hl] at hm
        by_cases hcd : c = '~' ∧ d = '/'
        · obtain ⟨h1, h2⟩ := hcd
          subst h1; subst h2
          simp only [Bool.and_eq_true] at hm
          refine ⟨rest, rfl, ?_, ?_⟩
          · have := hm.2
            rw [List.any_eq_true] at this
            obtain ⟨c2, hmem, hch⟩ := this
            have hc2 : c2 = '*' := by simpa using hch
            subst hc2
            exact List.mem_cons_of_mem _ (List.mem_cons_of_mem _ hmem)
          · injection h with h
            exact h.symm
        · exfalso
          revert hm
          match c, d with
          | '~', '/' => intro _; exact hcd ⟨rfl, rfl⟩
          | c, d => simp_all [globPathMatches]
    · rw [if_neg hc] at h
      exact absurd h (by simp)

/-- Witness for `path_literal_security`: instantiating the rejection part
at `~/a/../b` and the glob part at `~/ph*tos/`. -/
theorem path_literal_security_witness :
    fileLiteralParser "~/a/../b" = none ∧
    globLiteralParser "~/a/../b" = none ∧
    (∃ rest, ("~/ph*tos/" : String).toList = '~' :: '/' :: rest ∧
      '*' ∈ ("~/ph*tos/" : String).toList ∧
      "~/ph*tos" = stripTrailingSlash "~/ph*tos/") := by
  refine ⟨(path_literal_security.1 "~/a/../b" (by decide)).1,
          (path_literal_security.1 "~/a/../b" (by decide)).2,
          path_literal_security.2.2.2.2 "~/ph*tos/" "~/ph*tos" (by decide)⟩

/-- Last-occurrence-wins accumulation, the effect of repeatedly overwriting
an optional slot while walking a list. -/
def lastWins {α : Type} : List α → Option α → Option α
  | [], d => d
  | x :: rest, _ => lastWins rest (some x)

/-- Selector for the `output` slot. -/
def outSel {E : Type} : ParsedArg E → Option String
  | .outputArg t => some t
  | _ => none

/-- Selector for the `condition` slot. -/
def ifSel {E : Type} : ParsedArg E → Option E
  | .ifArg c => some c
  | _ => none

/-- Selector for the `forEach` slot. -/
def feSel {E : Type} : ParsedArg E → Option (E × String)
  | .forEachArg src it => some (src, it)
  | _ => none

/-- Selector for the `label` slot. -/
def labelSel {E : Type} : ParsedArg E → Option String
  | .labelArg l => some l
  | _ => none

/-- Selector for the `retry` slot. -/
def retrySel {E : Type} : ParsedArg E → Option E
  | .retryArg c => some c
  | _ => none

/-- Selector for the `collect` slot. -/
def collectSel {E : Type} : ParsedArg E → Option String
  | .collectArg t => some t
  | _ => none

theorem foldl_stepArg_regularArgs {E : Type} (args : List (ParsedArg E)) :
    ∀ st : ArgFold E,
      (args.foldl stepArg st).regularArgs =
        st.regularArgs ++ args.filterMap plainPart := by
  induction args with
  | nil => intro st; simp
  | cons a rest ih =>
    intro st
    cases a <;> simp [stepArg, plainPart, ih]

theorem foldl_stepArg_output {E : Type} (args : List (ParsedArg E)) :
    ∀ st : ArgFold E,
      (args.foldl stepArg st).output =
        lastWins (args.filterMap outSel) st.output := by
  induction args with
  | nil => intro st; simp [lastWins]
  | cons a rest ih =>
    intro st
    cases a <;> simp [stepArg, outSel, lastWins, ih]

theorem foldl_stepArg_condition {E : Type} (args : List (ParsedArg E)) :
    ∀ st : ArgFold E,
      (args.foldl stepArg st).condition =
        lastWins (args.filterMap ifSel) st.condition := by
  induction args with
  | nil => intro st; simp [lastWins]
  | cons a rest ih =>
    intro st
    cases a <;> simp [stepArg, ifSel, lastWins, ih]

theorem foldl_stepArg_forEach {E : Type} (args : List (ParsedArg E)) :
    ∀ st : ArgFold E,
      (args.foldl stepArg st).forEach =
        lastWins (args.filterMap feSel) st.forEach := by
  induction args with
  | nil => intro st; simp [lastWins]
  | cons a rest ih =>
    intro st
    cases a <;> simp [stepArg, feSel, lastWins, ih]

theorem foldl_stepArg_label {E : Type} (args : List (ParsedArg E)) :
    ∀ st : ArgFold E,
      (args.foldl stepArg st).label =
        lastWins (args.filterMap labelSel) st.label := by
  induction args with
  | nil => intro st; simp [lastWins]
  | cons a rest ih =>
    intro st
    cases a <;> simp [stepArg, labelSel, lastWins, ih]

theorem foldl_stepArg_retry {E : Type} (args : List (ParsedArg E)) :
    ∀ st : ArgFold E,
      (args.foldl stepArg st).retry =
        lastWins (args.filterMap retrySel) st.retry := by
  induction args with
  | nil => intro st; simp [lastWins]
  | cons a rest ih =>
    intro st
    cases a <;> simp [stepArg, retrySel, lastWins, ih]

theorem foldl_stepArg_collect {E : Type} (args : List (ParsedArg E)) :
    ∀ st : ArgFold E,
      (args.foldl stepArg st).collect =
        lastWins (args.filterMap collectSel) st.collect := by
  induction args with
  | nil => intro st; simp [lastWins]
  | cons a rest ih =>
    intro st
    cases a <;> simp [stepArg, collectSel, lastWins, ih]

theorem lastWins_isSome_of_some {α : Type} (xs : List α) (v : α) :
    (lastWins xs (some v)).isSome = true := by
  induction xs generalizing v with
  | nil => rfl
  | cons x rest ih => exact ih x

theorem lastWins_isSome_of_ne_nil {α : Type} (xs : List α) (d : Option α)
    (h : xs ≠ []) : (lastWins xs d).isSome = true := by
  cases xs with
  | nil => exact absurd rfl h
  | cons x rest => exact lastWins_isSome_of_some rest x

/-- C6: parsing an instruction that carries both `output=` and `collect=`
fails with the dedicated error, whatever the argument order — the builder
never yields an instruction node for it. -/
theorem output_collect_exclusive {E : Type} (action : String)
    (args : List (ParsedArg E))
    (ho : ∃ t, ParsedArg.outputArg t ∈ args)
    (hc : ∃ t, ParsedArg.collectArg t ∈ args) :
    buildInstruction action args = .error outputCollectError := by
  obtain ⟨t1, hto⟩ := ho
  obtain ⟨t2, htc⟩ := hc
  unfold buildInstruction
  have hout : (args.foldl stepArg (argFoldInit E)).output.isSome = true := by
    rw [foldl_stepArg_output]
    apply lastWins_isSome_of_ne_nil
    intro hnil
    rw [List.filterMap_eq_nil_iff] at hnil
    have := hnil _ hto
    simp [outSel] at this
  have hcol : (args.foldl stepArg (argFoldInit E)).collect.isSome = true := by
    rw [foldl_stepArg_collect]
    apply lastWins_isSome_of_ne_nil
    intro hnil
    rw [List.filterMap_eq_nil_iff] at hnil
    have := hnil _ htc
    simp [collectSel] at this
  simp only [argFoldInit] at hout hcol
  simp [hout, hcol, argFoldInit]

/-- Witness for `output_collect_exclusive`: the clash is rejected in both
textual orders. -/
theorem output_collect_exclusive_witness :
    buildInstruction (E := Nat) "race/run"
        [.outputArg "x", .plain "laps" 53, .collectArg "r"] =
      .error outputCollectError ∧
    buildInstruction (E := Nat) "race/run"
        [.collectArg "r", .plain "laps" 53, .outputArg "x"] =
      .error outputCollectError := by
  constructor
  · exact output_collect_exclusive "race/run" _
      ⟨"x", by simp⟩ ⟨"r", by simp⟩
  · exact output_collect_exclusive "race/run" _
      ⟨"x", by simp⟩ ⟨"r", by simp⟩

theorem filterMap_through_rsv {E β : Type} (sel : ParsedArg E → Option β)
    (hp : ∀ n v, sel (.plain n v) = none) (args : List (ParsedArg E)) :
    (args.filterMap rsvPart).filterMap sel = args.filterMap sel := by
  rw [List.filterMap_filterMap]
  congr 1
  funext a
  cases a <;> simp [rsvPart, hp]

theorem filterMap_sel_nil_of_tag_not_mem {E β : Type}
    (sel : ParsedArg E → Option β) (t : Nat)
    (ht : ∀ a, (sel a).isSome → rtag a = some t) :
    ∀ l : List (ParsedArg E), t ∉ l.filterMap rtag → l.filterMap sel = [] := by
  intro l hnm
  rw [List.filterMap_eq_nil_iff]
  intro a ha
  cases hsa : sel a with
  | none => rfl
  | some b =>
    exfalso
    apply hnm
    rw [List.mem_filterMap]
    exact ⟨a, ha, ht a (by simp [hsa])⟩

theorem length_filterMap_le_one {E β : Type} (sel : ParsedArg E → Option β)
    (t : Nat) (ht : ∀ a, (sel a).isSome → rtag a = some t) :
    ∀ l : List (ParsedArg E), (l.filterMap rtag).Nodup →
      (l.filterMap sel).length ≤ 1 := by
  intro l
  induction l with
  | nil => intro _; simp
  | cons a rest ih =>
    intro hnodup
    cases hsa : sel a with
    | none =>
      rw [List.filterMap_cons_none hsa]
      apply ih
      cases hga : rtag a with
      | none => rwa [List.filterMap_cons_none hga] at hnodup
      | some u =>
        rw [List.filterMap_cons_some hga] at hnodup
        exact hnodup.of_cons
    | some b =>
      rw [List.filterMap_cons_some hsa]
      have hga : rtag a = some t := ht a (by simp [hsa])
      rw [List.filterMap_cons_some hga] at hnodup
      have hrest : rest.filterMap sel = [] := by
        apply filterMap_sel_nil_of_tag_not_mem sel t ht
        exact (List.nodup_cons.mp hnodup).1
      rw [hrest]
      simp

theorem perm_eq_of_length_le_one {β : Type} {l1 l2 : List β}
    (hperm : l1.Perm l2) (hlen : l1.length ≤ 1) : l1 = l2 := by
  cases l1 with
  | nil => exact (hperm.nil_eq).symm ▸ rfl
  | cons x rest =>
    cases rest with
    | nil =>
      have hl2 : l2.length = 1 := by
        rw [← hperm.length_eq]
        rfl
      obtain ⟨y, hy⟩ := List.length_eq_one.mp hl2
      subst hy
      have : x ∈ [y] := hperm.mem_iff.mp (by simp)
      simp at this
      rw [this]
    | cons z zs => simp at hlen

theorem sel_filterMap_eq {E β : Type} (sel : ParsedArg E → Option β)
    (t : Nat) (hp : ∀ n v, sel (.plain n v) = none)
    (ht : ∀ a, (sel a).isSome → rtag a = some t)
    (args1 args2 : List (ParsedArg E))
    (hperm : (args1.filterMap rsvPart).Perm (args2.filterMap rsvPart))
    (hnodup : (args1.filterMap rtag).Nodup) :
    args1.filterMap sel = args2.filterMap sel := by
  rw [← filterMap_through_rsv sel hp args1, ← filterMap_through_rsv sel hp args2]
  apply perm_eq_of_length_le_one (hperm.filterMap sel)
  apply length_filterMap_le_one sel t ht
  rw [filterMap_through_rsv rtag (fun _ _ => rfl) args1]
  exact hnodup

/-- C5: for a valid combination of reserved arguments (none of them
repeated), any two argument lists that carry the same plain arguments in
the same relative order and the same reserved arguments in any order build
the same instruction node — every field, including the plain-argument
list, agrees. -/
theorem arg_order_independence {E : Type} (action : String)
    (args1 args2 : List (ParsedArg E))
    (hplain : args1.filterMap plainPart = args2.filterMap plainPart)
    (hperm : (args1.filterMap rsvPart).Perm (args2.filterMap rsvPart))
    (hvalid : (args1.filterMap rtag).Nodup) :
    buildInstruction action args1 = buildInstruction action args2 := by
  have h0 : args1.filterMap outSel = args2.filterMap outSel :=
    sel_filterMap_eq outSel 0 (fun _ _ => rfl)
      (fun a => by cases a <;> simp [outSel, rtag]) args1 args2 hperm hvalid
  have h1 : args1.filterMap ifSel = args2.filterMap ifSel :=
    sel_filterMap_eq ifSel 1 (fun _ _ => rfl)
      (fun a => by cases a <;> simp [ifSel, rtag]) args1 args2 hperm hvalid
  have h2 : args1.filterMap feSel = args2.filterMap feSel :=
    sel_filterMap_eq feSel 2 (fun _ _ => rfl)
      (fun a => by cases a <;> simp [feSel, rtag]) args1 args2 hperm hvalid
  have h3 : args1.filterMap labelSel = args2.filterMap labelSel :=
    sel_filterMap_eq labelSel 3 (fun _ _ => rfl)
      (fun a => by cases a <;> simp [labelSel, rtag]) args1 args2 hperm hvalid
  have h4 : args1.filterMap retrySel = args2.filterMap retrySel :=
    sel_filterMap_eq retrySel 4 (fun _ _ => rfl)
      (fun a => by cases a <;> simp [retrySel, rtag]) args1 args2 hperm hvalid
  have h5 : args1.filterMap collectSel = args2.filterMap collectSel :=
    sel_filterMap_eq collectSel 5 (fun _ _ => rfl)
      (fun a => by cases a <;> simp [collectSel, rtag]) args1 args2 hperm hvalid
  simp only [buildInstruction, foldl_stepArg_output, foldl_stepArg_collect,
    foldl_stepArg_condition, foldl_stepArg_forEach, foldl_stepArg_label,
    foldl_stepArg_retry, foldl_stepArg_regularArgs, argFoldInit]
  rw [h0, h1, h2, h3, h4, h5, hplain]

/-- Witness for `arg_order_independence`: `retry=3 if=7` and `if=7 retry=3`
around a fixed plain argument parse to the same instruction node. -/
theorem arg_order_independence_witness :
    buildInstruction (E := Nat) "race/run"
        [.retryArg 3, .plain "laps" 53, .ifArg 7] =
      buildInstruction (E := Nat) "race/run"
        [.ifArg 7, .plain "laps" 53, .retryArg 3] :=
  arg_order_independence "race/run" _ _ (by decide)
    (by decide) (by decide)

/-- C9: exactly the `scope.`-prefixed targets are written to the scope
chain with the prefix stripped; every other target — a `data.`-prefixed one
included — goes to the global data store under the full dotted path, so
`data.user` creates the nested key `data.user` inside the store instead of
addressing the store root. -/
theorem output_target_spec :
    (∀ s : String, strStartsWith s "scope." = true →
      parseOutputTarget s = { ns := .scope, key := s.drop 6 }) ∧
    (∀ s : String, strStartsWith s "scope." = false →
      parseOutputTarget s = { ns := .data, key := s }) ∧
    (∀ (ins : InstrModel) (oracle : Oracle) (n : Nat) (ctx : Ctx)
        (r : HandlerResult) (key : String),
      ins.output = some key → strStartsWith key "scope." = false →
      oracle ins.id n ctx = .ok r → r.success = true →
      (execute ins oracle n ctx).1 = .ok
        { context := { ctx with
            data := dataSet ctx.data (splitPath key) r.value }
          flow := determineFlowControl ins.id r.value
          log := { command := ins.id, success := true,
                   messages := r.messages, fatalError := r.fatalError,
                   cost := r.cost, output := some key, value := r.value }
          cost := r.cost }) ∧
    (∀ (ins : InstrModel) (oracle : Oracle) (n : Nat) (ctx : Ctx)
        (r : HandlerResult) (key : String),
      ins.output = some key → strStartsWith key "scope." = true →
      oracle ins.id n ctx = .ok r → r.success = true →
      (execute ins oracle n ctx).1 = .ok
        { context := { ctx with
            scopeChain := write (key.drop 6) r.value ctx.scopeChain }
          flow := determineFlowControl ins.id r.value
          log := { command := ins.id, success := true,
                   messages := r.messages, fatalError := r.fatalError,
                   cost := r.cost, output := some key, value := r.value }
          cost := r.cost }) ∧
    (∀ v : Value,
      dataSet (.node []) (splitPath "data.user") v =
        .node [("data", .node [("user", .leaf v)])]) := by
  refine ⟨?_, ?_, ?_, ?_, ?_⟩
  · intro s h
    simp [parseOutputTarget, h]
  · intro s h
    simp [parseOutputTarget, h]
  · intro ins oracle n ctx r key hout hns horacle hsucc
    simp only [execute, horacle, hout, hsucc, writeToTarget,
      parseOutputTarget, hns, if_false, Option.isSome_some, Bool.and_self,
      Bool.true_and, Bool.true_or, if_true]
    simp
  · intro ins oracle n ctx r key hout hns horacle hsucc
    simp only [execute, horacle, hout, hsucc, writeToTarget,
      parseOutputTarget, hns, if_true, Option.isSome_some, Bool.and_self,
      Bool.true_and, Bool.true_or]
  · intro v
    rfl

/-- Witness for `output_target_spec`: the target `data.user` goes to the
data store as the nested path, and the target `scope.user` goes to the
scope chain with the prefix stripped. -/
theorem output_target_spec_witness :
    parseOutputTarget "data.user" = { ns := .data, key := "data.user" } ∧
    parseOutputTarget "scope.user" = { ns := .scope, key := "user" } ∧
    dataSet (.node []) (splitPath "data.user") (.vnum 7) =
      .node [("data", .node [("user", .leaf (.vnum 7))])] :=
  ⟨output_target_spec.2.1 "data.user" (by decide),
   by rw [output_target_spec.1 "scope.user" (by decide)]; decide,
   output_target_spec.2.2.2.2 (.vnum 7)⟩

/-- C8: a `forEach` whose iterable evaluates to anything but a sequence is
a fatal error naming the offending runtime type, with no iteration body
executed (no handler invocation consumed, empty trace), in both the
instruction-level and the block-level forEach executors. -/
theorem foreach_type_error_spec :
    (∀ (ins : InstrModel) (fe : ForEachModel) (oracle : Oracle) (ctx : Ctx)
        (n : Nat) (v : Value),
      ins.forEach = some fe → fe.iterable ctx = v → isArrayV v = false →
      executeForEachInstruction ins oracle ctx n =
        (.error ("Cannot iterate over " ++ jsTypeName v ++
          ". forEach requires an array."), n, [])) ∧
    (∀ (cond : Option Expr) (fe : ForEachModel)
        (body : Ctx → Nat → (Except String SLOut) × Nat) (ctx : Ctx)
        (n : Nat) (v : Value),
      fe.iterable ctx = v → isArrayV v = false →
      executeForEachWithStatementList cond fe body ctx n =
        (.error ("Cannot iterate over " ++ jsTypeName v ++
          ". forEach requires an array."), n, [])) := by
  constructor
  · intro ins fe oracle ctx n v hfe hv harr
    subst hv
    unfold executeForEachInstruction
    rw [hfe]
    dsimp only
    cases hvv : fe.iterable ctx <;> simp_all [isArrayV, cannotIterateMsg]
  · intro cond fe body ctx n v hv harr
    subst hv
    unfold executeForEachWithStatementList
    cases hvv : fe.iterable ctx <;> simp_all [isArrayV, cannotIterateMsg]

/-- Witness for `foreach_type_error_spec`: iterating the number 5 fails
with the message naming `number`, consuming nothing. -/
theorem foreach_type_error_spec_witness :
    executeForEachInstruction
        { id := "@ai/gen", output := none, collect := none,
          condition := none,
          forEach := some { iterable := fun _ => .vnum 5, iterator := "x" },
          retry := none, label := none }
        (fun _ _ _ => .error "unused")
        { data := .node [], scopeChain := [] } 0 =
      (.error "Cannot iterate over number. forEach requires an array.",
       0, []) := by
  have h := foreach_type_error_spec.1
    { id := "@ai/gen", output := none, collect := none, condition := none,
      forEach := some { iterable := fun _ => .vnum 5, iterator := "x" },
      retry := none, label := none }
    { iterable := fun _ => .vnum 5, iterator := "x" }
    (fun _ _ _ => .error "unused")
    { data := .node [], scopeChain := [] } 0 (.vnum 5) rfl rfl rfl
  simpa using h

theorem execute_counter (ins : InstrModel) (oracle : Oracle) (n : Nat)
    (ctx : Ctx) : (execute ins oracle n ctx).2 = n + 1 := by
  unfold execute
  cases oracle ins.id n ctx <;> rfl

theorem execute_of_error {ins : InstrModel} {oracle : Oracle} {n : Nat}
    {ctx : Ctx} {e : String} (h : oracle ins.id n ctx = .error e) :
    execute ins oracle n ctx = (.error e, n + 1) := by
  unfold execute
  rw [h]

theorem retryGo_all_errors (ins : InstrModel) (oracle : Oracle)
    (e : Nat → String) (horacle : ∀ k c2, oracle ins.id k c2 = .error (e k)) :
    ∀ (N : Nat) (ctx : Ctx) (n : Nat),
      retryGo ins oracle ctx N n = (.error (e (n + N)), n + N + 1) := by
  intro N
  induction N with
  | zero =>
    intro ctx n
    rw [retryGo, execute_of_error (horacle n ctx)]
    rfl
  | succ m ih =>
    intro ctx n
    rw [retryGo, execute_of_error (horacle n ctx)]
    dsimp only
    rw [ih ctx (n + 1)]
    have h1 : n + 1 + m = n + (m + 1) := by omega
    rw [h1]

theorem determineFlowControl_cont (id : String) (v : Value)
    (h1 : id ≠ "@flow/goto") (h2 : id ≠ "@flow/exit")
    (h3 : id ≠ "@flow/return") : determineFlowControl id v = .cont := by
  simp [determineFlowControl, h1, h2, h3]

/-- C1: (1) without `retry` the handler is attempted exactly once;
(2) with `retry` evaluating to `N` and a handler throwing on every
invocation, exactly `N + 1` invocations happen and the error of the last
attempt propagates unchanged; (3) in a `forEach`, an always-throwing
handler consumes exactly `N + 1` invocations on the first element and the
run fails there; (4) attempt budgets are per element: with `retry = 2`, an
element failing once then succeeding consumes two invocations, and its
sibling then consumes one, starting its own fresh budget. -/
theorem retry_budget_spec :
    (∀ (ins : InstrModel) (oracle : Oracle) (n : Nat) (ctx : Ctx),
      ins.retry = none →
      executeWithRetry ins oracle n ctx = execute ins oracle n ctx ∧
      (executeWithRetry ins oracle n ctx).2 = n + 1) ∧
    (∀ (ins : InstrModel) (oracle : Oracle) (n : Nat) (ctx : Ctx)
        (rexpr : Expr) (N : Nat) (e : Nat → String),
      ins.retry = some rexpr → (∀ c2, rexpr c2 = .vnum N) →
      (∀ k c2, oracle ins.id k c2 = .error (e k)) →
      executeWithRetry ins oracle n ctx =
        (.error (e (n + N)), n + N + 1)) ∧
    (∀ (ins : InstrModel) (fe : ForEachModel) (oracle : Oracle) (ctx : Ctx)
        (n : Nat) (x : Value) (xs : List Value) (rexpr : Expr) (N : Nat)
        (e : Nat → String),
      ins.forEach = some fe → fe.iterable ctx = .vseq (x :: xs) →
      ins.condition = none → ins.retry = some rexpr →
      (∀ c2, rexpr c2 = .vnum N) →
      (∀ k c2, oracle ins.id k c2 = .error (e k)) →
      executeForEachInstruction ins oracle ctx n =
        (.error (e (n + N)), n + N + 1, [(0, n, n + N + 1)])) ∧
    (∀ (ins : InstrModel) (fe : ForEachModel) (oracle : Oracle) (ctx : Ctx)
        (n : Nat) (a b : Value) (rexpr : Expr) (r1 r2 : HandlerResult)
        (e0 : String),
      ins.forEach = some fe → fe.iterable ctx = .vseq [a, b] →
      ins.condition = none → ins.collect = none → ins.output = none →
      ins.retry = some rexpr → (∀ c2, rexpr c2 = .vnum 2) →
      ins.id ≠ "@flow/goto" → ins.id ≠ "@flow/exit" →
      ins.id ≠ "@flow/return" →
      (∀ c2, oracle ins.id n c2 = .error e0) →
      (∀ c2, oracle ins.id (n + 1) c2 = .ok r1) →
      (∀ c2, oracle ins.id (n + 2) c2 = .ok r2) →
      (executeForEachInstruction ins oracle ctx n).2.2 =
        [(0, n, n + 2), (1, n + 2, n + 3)]) := by
  have hwr : ∀ (ins : InstrModel) (oracle : Oracle) (n : Nat) (ctx : Ctx)
      (rexpr : Expr) (N : Nat) (e : Nat → String),
      ins.retry = some rexpr → (∀ c2, rexpr c2 = .vnum N) →
      (∀ k c2, oracle ins.id k c2 = .error (e k)) →
      executeWithRetry ins oracle n ctx =
        (.error (e (n + N)), n + N + 1) := by
    intro ins oracle n ctx rexpr N e hretry hrv horacle
    unfold executeWithRetry
    rw [hretry]
    dsimp only
    rw [hrv ctx]
    dsimp only
    have hneg : ¬ ((N : Int) < 0) := by omega
    rw [if_neg hneg, show ((N : Int)).toNat = N from by simp]
    exact retryGo_all_errors ins oracle e horacle N ctx n
  refine ⟨?_, hwr, ?_, ?_⟩
  · intro ins oracle n ctx hretry
    unfold executeWithRetry
    rw [hretry]
    exact ⟨rfl, execute_counter ins oracle n ctx⟩
  · intro ins fe oracle ctx n x xs rexpr N e hfe hv hcond hretry hrv horacle
    unfold executeForEachInstruction
    rw [hfe]
    dsimp only
    rw [hv]
    dsimp only
    rw [if_neg (by simp)]
    rw [feInstrGo]
    dsimp only
    rw [hcond]
    dsimp only
    rw [if_pos rfl]
    rw [hwr ins oracle n _ rexpr N e hretry hrv horacle]
  · intro ins fe oracle ctx n a b rexpr r1 r2 e0 hfe hv hcond hcol hout
      hretry hrv hid1 hid2 hid3 ho0 ho1 ho2
    have hwrOk : ∀ (m : Nat) (c2 : Ctx) (rr : HandlerResult),
        (∀ c3, oracle ins.id m c3 = .ok rr) →
        executeWithRetry ins oracle m c2 =
          (.ok { context := c2, flow := .cont,
                 log := { command := ins.id, success := rr.success,
                          messages := rr.messages,
                          fatalError := rr.fatalError, cost := rr.cost,
                          output := ins.output,
                          value := .vundefined },
                 cost := rr.cost }, m + 1) := by
      intro m c2 rr hok
      unfold executeWithRetry
      rw [hretry]
      dsimp only
      rw [hrv c2]
      dsimp only
      rw [if_neg (by decide), retryGo]
      unfold execute
      rw [hok c2]
      dsimp only
      rw [hout, hcol]
      simp [determineFlowControl_cont ins.id rr.value hid1 hid2 hid3]
    have hwrFailOnce : ∀ c2 : Ctx,
        executeWithRetry ins oracle n c2 =
          (.ok { context := c2, flow := .cont,
                 log := { command := ins.id, success := r1.success,
                          messages := r1.messages,
                          fatalError := r1.fatalError, cost := r1.cost,
                          output := ins.output,
                          value := .vundefined },
                 cost := r1.cost }, n + 2) := by
      intro c2
      unfold executeWithRetry
      rw [hretry]
      dsimp only
      rw [hrv c2]
      dsimp only
      rw [if_neg (by decide), show ((2 : Int)).toNat = 2 from rfl, retryGo,
        execute_of_error (ho0 c2)]
      dsimp only
      rw [retryGo]
      unfold execute
      rw [ho1 c2]
      dsimp only
      rw [hout, hcol]
      simp [determineFlowControl_cont ins.id r1.value hid1 hid2 hid3]
    unfold executeForEachInstruction
    rw [hfe]
    try dsimp only
    rw [hv]
    try dsimp only
    rw [if_neg (by simp)]
    rw [feInstrGo]
    try dsimp only
    rw [hcond]
    try dsimp only
    rw [if_pos rfl]
    rw [hwrFailOnce]
    try dsimp only
    rw [hcol]
    try dsimp only
    rw [feInstrGo]
    try dsimp only
    rw [hcond]
    try dsimp only
    rw [if_pos rfl]
    rw [hwrOk (n + 2) _ r2 ho2]
    try dsimp only
    rw [hcol]
    try dsimp only
    rw [feInstrGo]

/-- Instruction used by the retry witness: `forEach` over two items with
`retry=2`. -/
def retryWitInstr : InstrModel :=
  { id := "@t/x", output := none, collect := none, condition := none,
    forEach := some { iterable := fun _ => .vseq [.vnum 1, .vnum 2],
                      iterator := "item" },
    retry := some (fun _ => .vnum 2), label := none }

/-- Oracle used by the retry witness: the first invocation throws, later
ones succeed. -/
def retryWitOracle : Oracle := fun _ k _ =>
  if k = 0 then .error "boom"
  else .ok { success := true, value := .vnull, messages := [],
             fatalError := none, cost := 1 }

/-- Oracle used by the retry witness: every invocation throws. -/
def retryWitFailOracle : Oracle := fun _ _ _ => .error "boom"

/-- Context used by the retry witness. -/
def retryWitCtx : Ctx := { data := .node [], scopeChain := [] }

/-- Witness for `retry_budget_spec`: a no-retry instruction consumes one
invocation; `retry=2` with an always-throwing handler consumes exactly 3
and fails with its error; the same in a `forEach` consumes 3 on element 0
and stops; and in the flaky scenario element 0 consumes 2 invocations,
element 1 one, each on a fresh budget. -/
theorem retry_budget_spec_witness :
    ((executeWithRetry { retryWitInstr with retry := none, forEach := none }
        retryWitFailOracle 0 retryWitCtx).2 = 0 + 1) ∧
    (executeWithRetry { retryWitInstr with forEach := none }
        retryWitFailOracle 0 retryWitCtx =
      (.error "boom", 0 + 2 + 1)) ∧
    (executeForEachInstruction retryWitInstr retryWitFailOracle
        retryWitCtx 0 =
      (.error "boom", 0 + 2 + 1, [(0, 0, 0 + 2 + 1)])) ∧
    ((executeForEachInstruction retryWitInstr retryWitOracle
        retryWitCtx 0).2.2 = [(0, 0, 0 + 2), (1, 0 + 2, 0 + 3)]) := by
  refine ⟨?_, ?_, ?_, ?_⟩
  · exact (retry_budget_spec.1 _ retryWitFailOracle 0 retryWitCtx rfl).2
  · exact retry_budget_spec.2.1 _ retryWitFailOracle 0 retryWitCtx
      (fun _ => .vnum 2) 2 (fun _ => "boom") rfl (fun _ => rfl)
      (fun _ _ => rfl)
  · exact retry_budget_spec.2.2.1 retryWitInstr _ retryWitFailOracle
      retryWitCtx 0 (.vnum 1) [.vnum 2] (fun _ => .vnum 2) 2
      (fun _ => "boom") rfl rfl rfl rfl (fun _ => rfl) (fun _ _ => rfl)
  · exact retry_budget_spec.2.2.2 retryWitInstr _ retryWitOracle
      retryWitCtx 0 (.vnum 1) (.vnum 2) (fun _ => .vnum 2)
      { success := true, value := .vnull, messages := [],
        fatalError := none, cost := 1 }
      { success := true, value := .vnull, messages := [],
        fatalError := none, cost := 1 }
      "boom" rfl rfl rfl rfl rfl rfl (fun _ => rfl) (by decide) (by decide)
      (by decide) (fun _ => rfl) (fun _ => rfl) (fun _ => rfl)

theorem execute_of_ok {ins : InstrModel} {oracle : Oracle} {n : Nat}
    {ctx : Ctx} {r : HandlerResult} (h : oracle ins.id n ctx = .ok r) :
    execute ins oracle n ctx =
      (.ok
        { context :=
            match ins.output with
            | some key =>
              if r.success then writeToTarget key r.value ctx else ctx
            | none => ctx
          flow := determineFlowControl ins.id r.value
          log :=
            { command := ins.id, success := r.success,
              messages := r.messages, fatalError := r.fatalError,
              cost := r.cost, output := ins.output,
              value :=
                if ins.output.isSome && r.success ||
                    ins.collect.isSome && r.success then r.value
                else .vundefined }
          cost := r.cost }, n + 1) := by
  unfold execute
  rw [h]

/-- C10: (1) a handler result with `success = false` is not caught by the
retry wrapper — even with a budget present, exactly one invocation happens
and the result is that of the single `execute`; (2,3) in a statement list,
such a result leaves the output (resp. collect) target unwritten — the
context moves on unchanged — while a log entry with `success = false` is
still appended, and execution continues with the next statement. -/
theorem success_false_spec :
    (∀ (ins : InstrModel) (oracle : Oracle) (n : Nat) (ctx : Ctx)
        (rexpr : Expr) (N : Nat) (r : HandlerResult),
      ins.retry = some rexpr → (∀ c2, rexpr c2 = .vnum N) →
      oracle ins.id n ctx = .ok r → r.success = false →
      executeWithRetry ins oracle n ctx = execute ins oracle n ctx ∧
      (executeWithRetry ins oracle n ctx).2 = n + 1) ∧
    (∀ (ins : InstrModel) (s2 : Stmt) (oracle : Oracle) (li : LabelIdx)
        (path : List Nat) (ctx : Ctx) (n fuel : Nat) (r : HandlerResult)
        (key : String),
      ins.forEach = none → ins.condition = none → ins.retry = none →
      ins.output = some key → ins.collect = none →
      oracle ins.id n ctx = .ok r → r.success = false →
      ins.id ≠ "@flow/goto" → ins.id ≠ "@flow/exit" →
      ins.id ≠ "@flow/return" →
      execSLGo oracle li [.instr ins, s2] path (fuel + 1) 0 ctx n =
        (prependOne
          { command := ins.id, success := false, messages := r.messages,
            fatalError := r.fatalError, cost := r.cost, output := some key,
            value := .vundefined } r.cost
          (execSLGo oracle li [.instr ins, s2] path fuel 1 ctx (n + 1)).1,
         (execSLGo oracle li [.instr ins, s2] path fuel 1 ctx (n + 1)).2)) ∧
    (∀ (ins : InstrModel) (s2 : Stmt) (oracle : Oracle) (li : LabelIdx)
        (path : List Nat) (ctx : Ctx) (n fuel : Nat) (r : HandlerResult)
        (key : String),
      ins.forEach = none → ins.condition = none → ins.retry = none →
      ins.output = none → ins.collect = some key →
      oracle ins.id n ctx = .ok r → r.success = false →
      ins.id ≠ "@flow/goto" → ins.id ≠ "@flow/exit" →
      ins.id ≠ "@flow/return" →
      execSLGo oracle li [.instr ins, s2] path (fuel + 1) 0 ctx n =
        (prependOne
          { command := ins.id, success := false, messages := r.messages,
            fatalError := r.fatalError, cost := r.cost, output := none,
            value := .vundefined } r.cost
          (execSLGo oracle li [.instr ins, s2] path fuel 1 ctx (n + 1)).1,
         (execSLGo oracle li [.instr ins, s2] path fuel 1 ctx (n + 1)).2)) := by
  refine ⟨?_, ?_, ?_⟩
  · intro ins oracle n ctx rexpr N r hretry hrv horacle hsucc
    have hone : executeWithRetry ins oracle n ctx = execute ins oracle n ctx := by
      unfold executeWithRetry
      rw [hretry]
      dsimp only
      rw [hrv ctx]
      dsimp only
      rw [if_neg (by omega), retryGo, execute_of_ok horacle]
    refine ⟨hone, ?_⟩
    rw [hone]
    exact execute_counter ins oracle n ctx
  · intro ins s2 oracle li path ctx n fuel r key hfe hcond hretry hout hcol
      horacle hsucc hid1 hid2 hid3
    rw [execSLGo]
    simp only [List.getElem?_cons_zero]
    rw [hfe]
    dsimp only
    rw [hcond]
    dsimp only
    rw [if_pos rfl]
    rw [show executeWithRetry ins oracle n ctx = execute ins oracle n ctx
      from by unfold executeWithRetry; rw [hretry]]
    rw [execute_of_ok horacle]
    dsimp only
    rw [hcol]
    dsimp only
    rw [hout, hsucc]
    rw [determineFlowControl_cont ins.id r.value hid1 hid2 hid3]
    simp
  · intro ins s2 oracle li path ctx n fuel r key hfe hcond hretry hout hcol
      horacle hsucc hid1 hid2 hid3
    rw [execSLGo]
    simp only [List.getElem?_cons_zero]
    rw [hfe]
    dsimp only
    rw [hcond]
    dsimp only
    rw [if_pos rfl]
    rw [show executeWithRetry ins oracle n ctx = execute ins oracle n ctx
      from by unfold executeWithRetry; rw [hretry]]
    rw [execute_of_ok horacle]
    dsimp only
    rw [hcol]
    dsimp only
    rw [hout, hsucc]
    rw [determineFlowControl_cont ins.id r.value hid1 hid2 hid3]
    simp [isUndef]

/-- Instruction used by the success-false witness: plain instruction with
an output target. -/
def sfWitInstr : InstrModel :=
  { id := "@t/x", output := some "x", collect := none, condition := none,
    forEach := none, retry := some (fun _ => .vnum 5), label := none }

/-- Oracle used by the success-false witness: resolves with
`success = false` instead of throwing. -/
def sfWitOracle : Oracle := fun _ _ _ =>
  .ok { success := false, value := .vnum 9, messages := [],
        fatalError := none, cost := 0 }

/-- Witness for `success_false_spec`: one invocation despite `retry=5`, and
the statement list moves on to the next statement with the context
unchanged and a `success = false` log entry. -/
theorem success_false_spec_witness :
    ((executeWithRetry sfWitInstr sfWitOracle 0 retryWitCtx).2 = 0 + 1) ∧
    execSLGo sfWitOracle [] [.instr { sfWitInstr with retry := none },
        .instr { sfWitInstr with retry := none }] [] (2 + 1) 0
        retryWitCtx 0 =
      (prependOne
        { command := "@t/x", success := false, messages := [],
          fatalError := none, cost := 0, output := some "x",
          value := .vundefined } 0
        (execSLGo sfWitOracle [] [.instr { sfWitInstr with retry := none },
          .instr { sfWitInstr with retry := none }] [] 2 1
          retryWitCtx (0 + 1)).1,
       (execSLGo sfWitOracle [] [.instr { sfWitInstr with retry := none },
          .instr { sfWitInstr with retry := none }] [] 2 1
          retryWitCtx (0 + 1)).2) := by
  constructor
  · exact (success_false_spec.1 sfWitInstr sfWitOracle 0 retryWitCtx
      (fun _ => .vnum 5) 5
      { success := false, value := .vnum 9, messages := [],
        fatalError := none, cost := 0 }
      rfl (fun _ => rfl) rfl rfl).2
  · exact success_false_spec.2.1 { sfWitInstr with retry := none }
      (.instr { sfWitInstr with retry := none }) sfWitOracle [] []
      retryWitCtx 0 2
      { success := false, value := .vnum 9, messages := [],
        fatalError := none, cost := 0 }
      "x" rfl rfl rfl rfl rfl rfl rfl (by decide) (by decide) (by decide)

theorem executeWithRetry_none {ins : InstrModel} {oracle : Oracle} {n : Nat}
    {ctx : Ctx} (h : ins.retry = none) :
    executeWithRetry ins oracle n ctx = execute ins oracle n ctx := by
  unfold executeWithRetry
  rw [h]

theorem lookupScope_write_self (k : String) (v : Value) (sc : ScopeChain) :
    lookupScope k (write k v sc) = some v := by
  have hf : ∀ f : Frame, lookupA k (writeFrame k v f) = some v := by
    intro f
    induction f with
    | nil => simp [writeFrame, lookupA]
    | cons p rest ih =>
      obtain ⟨k2, v2⟩ := p
      by_cases hk : k = k2
      · simp [writeFrame, hk, lookupA]
      · simp [writeFrame, hk, lookupA, ih]
  cases sc with
  | nil => simp [write, lookupScope, lookupA]
  | cons f rest => simp [write, lookupScope, hf f]

theorem popScope_iter_entry (iterName : String) (x : Value) (i L : Nat)
    (sc : ScopeChain) :
    popScope (write iterName x (writeSystemVariables i L (pushScope sc))) =
      sc := rfl

/-- The values the collect accumulator gathers: for each element passing
the filter `q`, the handler value of the invocation it consumes, in
iteration order. -/
def collectVals (hr : Nat → HandlerResult) (q : Value → Bool) :
    List Value → Nat → List Value
  | [], _ => []
  | x :: rest, n =>
    if q x then (hr n).value :: collectVals hr q rest (n + 1)
    else collectVals hr q rest n

/-- The log entries of a filtered, collect-accumulating forEach run. -/
def collectLogs (ins : InstrModel) (hr : Nat → HandlerResult)
    (q : Value → Bool) : List Value → Nat → List ActionLog
  | [], _ => []
  | x :: rest, n =>
    if q x then
      { command := ins.id, success := (hr n).success,
        messages := (hr n).messages, fatalError := (hr n).fatalError,
        cost := (hr n).cost, output := ins.output,
        value := (hr n).value } :: collectLogs ins hr q rest (n + 1)
    else collectLogs ins hr q rest n

/-- The accumulated cost of a filtered forEach run. -/
def collectCost (hr : Nat → HandlerResult) (q : Value → Bool) :
    List Value → Nat → Int
  | [], _ => 0
  | x :: rest, n =>
    if q x then (hr n).cost + collectCost hr q rest (n + 1)
    else collectCost hr q rest n

/-- The ghost trace of a filtered forEach run with one invocation per
passing element. -/
def collectTrace (q : Value → Bool) : List Value → Nat → Nat → FETrace
  | [], _, _ => []
  | x :: rest, idx, n =>
    if q x then (idx, n, n + 1) :: collectTrace q rest (idx + 1) (n + 1)
    else collectTrace q rest (idx + 1) n

theorem collectVals_length (hr : Nat → HandlerResult) (q : Value → Bool) :
    ∀ (xs : List Value) (n : Nat),
      (collectVals hr q xs n).length = (xs.filter q).length := by
  intro xs
  induction xs with
  | nil => intro n; rfl
  | cons x rest ih =>
    intro n
    by_cases hqx : q x = true <;>
      simp [collectVals, List.filter_cons, hqx, ih]

theorem feInstrGo_collect (ins : InstrModel) (oracle : Oracle)
    (iterName : String) (L : Nat) (key : String)
    (hr : Nat → HandlerResult) (q : Value → Bool)
    (hcol : ins.collect = some key) (hout : ins.output = none)
    (hretry : ins.retry = none)
    (hid1 : ins.id ≠ "@flow/goto") (hid2 : ins.id ≠ "@flow/exit")
    (hid3 : ins.id ≠ "@flow/return")
    (horacle : ∀ k c2, oracle ins.id k c2 = .ok (hr k))
    (hsucc : ∀ k, (hr k).success = true)
    (hdef : ∀ k, isUndef (hr k).value = false)
    (hq : ∀ (item : Value) (c2 : Ctx),
      lookupScope iterName c2.scopeChain = some item →
      (match ins.condition with
       | some c => truthy (c c2)
       | none => true) = q item) :
    ∀ (xs : List Value) (idx : Nat) (ctx : Ctx) (n : Nat)
      (acc : List Value),
      feInstrGo ins oracle iterName L xs idx ctx n acc =
        (.ok { context :=
                 writeToTarget key
                   (.vseq (acc ++ collectVals hr q xs n)) ctx
               flow := .cont
               actions := collectLogs ins hr q xs n
               cost := collectCost hr q xs n },
         n + (xs.filter q).length, collectTrace q xs idx n) := by
  intro xs
  induction xs with
  | nil =>
    intro idx ctx n acc
    rw [feInstrGo, hcol]
    simp [collectVals, collectLogs, collectCost, collectTrace]
  | cons x rest ih =>
    intro idx ctx n acc
    rw [feInstrGo]
    dsimp only
    have hlook : lookupScope iterName
        (write iterName x
          (writeSystemVariables idx L
            (pushScope ctx.scopeChain))) = some x :=
      lookupScope_write_self _ _ _
    rw [hq x _ hlook]
    by_cases hqx : q x = true
    · rw [if_pos hqx, executeWithRetry_none hretry,
        execute_of_ok (horacle n _)]
      dsimp only
      rw [hout]
      dsimp only
      rw [hcol, hsucc n]
      simp only [Option.isSome_none, Option.isSome_some, Bool.false_and,
        Bool.true_and, Bool.false_or, eq_self_iff_true, if_true]
      rw [hdef n]
      simp only [Bool.not_false, Bool.and_self, eq_self_iff_true, if_true]
      rw [determineFlowControl_cont ins.id (hr n).value hid1 hid2 hid3]
      dsimp only
      rw [popScope_iter_entry]
      rw [ih (idx + 1) { data := ctx.data, scopeChain := ctx.scopeChain }
        (n + 1) (acc ++ [(hr n).value])]
      simp only [prependOne]
      rw [collectVals, collectLogs, collectCost, collectTrace,
        List.filter_cons, if_pos hqx, if_pos hqx, if_pos hqx, if_pos hqx]
      simp [List.append_assoc]
      refine ⟨⟨hsucc n, hout.symm⟩, by omega, by rw [if_pos hqx]⟩
    · rw [if_neg hqx, popScope_iter_entry]
      rw [ih (idx + 1) { data := ctx.data, scopeChain := ctx.scopeChain }
        n acc]
      rw [collectVals, collectLogs, collectCost, collectTrace,
        List.filter_cons, if_neg hqx, if_neg hqx, if_neg hqx, if_neg hqx]
      simp [hqx]

/-- C3 (amended): a collect without forEach whose handler succeeds with a
defined value writes the one-element sequence of that value; a collect
with forEach over `xs` whose invocations succeed with defined values
writes exactly the values of the elements passing the filter, one per
passing element, in iteration order; and forEach over an empty sequence
executes the body zero times while still writing an empty sequence to the
collect target. -/
theorem collect_semantics :
    (∀ (ins : InstrModel) (oracle : Oracle) (li : LabelIdx)
        (path : List Nat) (ctx : Ctx) (n fuel : Nat) (r : HandlerResult)
        (key : String),
      ins.forEach = none → ins.condition = none → ins.retry = none →
      ins.output = none → ins.collect = some key →
      oracle ins.id n ctx = .ok r → r.success = true →
      isUndef r.value = false →
      ins.id ≠ "@flow/goto" → ins.id ≠ "@flow/exit" →
      ins.id ≠ "@flow/return" →
      execSLGo oracle li [.instr ins] path (fuel + 1 + 1) 0 ctx n =
        (.ok { context := writeToTarget key (.vseq [r.value]) ctx
               flow := .cont
               actions := [{ command := ins.id, success := true,
                             messages := r.messages,
                             fatalError := r.fatalError, cost := r.cost,
                             output := none, value := r.value }]
               cost := r.cost }, n + 1)) ∧
    (∀ (ins : InstrModel) (fe : ForEachModel) (oracle : Oracle) (ctx : Ctx)
        (n : Nat) (key : String) (xs : List Value)
        (hr : Nat → HandlerResult) (q : Value → Bool),
      ins.forEach = some fe → fe.iterable ctx = .vseq xs →
      ins.collect = some key → ins.output = none → ins.retry = none →
      ins.id ≠ "@flow/goto" → ins.id ≠ "@flow/exit" →
      ins.id ≠ "@flow/return" →
      (∀ k c2, oracle ins.id k c2 = .ok (hr k)) →
      (∀ k, (hr k).success = true) →
      (∀ k, isUndef (hr k).value = false) →
      (∀ (item : Value) (c2 : Ctx),
        lookupScope fe.iterator c2.scopeChain = some item →
        (match ins.condition with
         | some c => truthy (c c2)
         | none => true) = q item) →
      executeForEachInstruction ins oracle ctx n =
        (.ok { context :=
                 writeToTarget key (.vseq (collectVals hr q xs n)) ctx
               flow := .cont
               actions := collectLogs ins hr q xs n
               cost := collectCost hr q xs n },
         n + (xs.filter q).length, collectTrace q xs 0 n) ∧
      (collectVals hr q xs n).length = (xs.filter q).length) ∧
    (∀ (ins : InstrModel) (fe : ForEachModel) (oracle : Oracle) (ctx : Ctx)
        (n : Nat) (key : String),
      ins.forEach = some fe → fe.iterable ctx = .vseq [] →
      ins.collect = some key →
      executeForEachInstruction ins oracle ctx n =
        (.ok { context := writeToTarget key (.vseq []) ctx, flow := .cont,
               actions := [], cost := 0 }, n, [])) := by
  refine ⟨?_, ?_, ?_⟩
  · intro ins oracle li path ctx n fuel r key hfe hcond hretry hout hcol
      horacle hsucc hdefv hid1 hid2 hid3
    rw [execSLGo]
    simp only [List.getElem?_cons_zero]
    rw [hfe]
    dsimp only
    rw [hcond]
    dsimp only
    rw [if_pos rfl, executeWithRetry_none hretry, execute_of_ok horacle]
    dsimp only
    rw [hout]
    dsimp only
    rw [hcol, hsucc]
    simp only [Option.isSome_none, Option.isSome_some, Bool.false_and,
      Bool.true_and, Bool.false_or, eq_self_iff_true, if_true]
    rw [hdefv]
    simp only [Bool.not_false, eq_self_iff_true, if_true]
    rw [determineFlowControl_cont ins.id r.value hid1 hid2 hid3]
    dsimp only
    rw [execSLGo]
    simp only [List.getElem?_cons_succ, List.getElem?_nil]
    dsimp only [prependOne]
    simp
  · intro ins fe oracle ctx n key xs hr q hfe hl hcol hout hretry hid1 hid2
      hid3 horacle hsucc hdefv hq
    refine ⟨?_, collectVals_length hr q xs n⟩
    unfold executeForEachInstruction
    rw [hfe]
    dsimp only
    rw [hl]
    dsimp only
    cases xs with
    | nil =>
      simp only [List.isEmpty_nil, eq_self_iff_true, if_true]
      rw [hcol]
      simp [collectVals, collectLogs, collectCost, collectTrace]
    | cons x rest =>
      rw [if_neg (by simp)]
      rw [feInstrGo_collect ins oracle fe.iterator (x :: rest).length key
        hr q hcol hout hretry hid1 hid2 hid3 horacle hsucc hdefv hq
        (x :: rest) 0 ctx n []]
      simp
  · intro ins fe oracle ctx n key hfe hl hcol
    unfold executeForEachInstruction
    rw [hfe]
    dsimp only
    rw [hl]
    dsimp only
    simp only [List.isEmpty_nil, eq_self_iff_true, if_true]
    rw [hcol]

/-- Instruction used by the collect counterexample and witness: a collect
instruction whose handler yields no value. -/
def cexInstr : InstrModel :=
  { id := "@t/noop", output := none, collect := some "r", condition := none,
    forEach := none, retry := none, label := none }

/-- Oracle whose handler resolves successfully but with `undefined` as its
value. -/
def cexOracle : Oracle := fun _ _ _ =>
  .ok { success := true, value := .vundefined, messages := [],
        fatalError := none, cost := 0 }

/-- Counterexample to C3 as stated: a collect instruction whose handler
invocation succeeds (the log entry records `success = true`) but returns
`undefined` writes nothing — the context comes back unchanged, with no
one-element sequence at the target `r`. -/
theorem collect_undefined_counterexample :
    execSLGo cexOracle [] [.instr cexInstr] [] 2 0
        { data := .node [], scopeChain := [] } 0 =
      (.ok { context := { data := .node [], scopeChain := [] }
             flow := .cont
             actions := [{ command := "@t/noop", success := true,
                           messages := [], fatalError := none, cost := 0,
                           output := none, value := .vundefined }]
             cost := 0 }, 1) ∧
    dataGet ["r"] (DataTree.node []) = none := by
  constructor
  · rfl
  · rfl

/-- Instruction used by the collect witness: forEach with collect. -/
def c3Instr : InstrModel :=
  { id := "@ai/gen", output := none, collect := some "r", condition := none,
    forEach := some { iterable := fun _ => .vseq [.vnum 10, .vnum 20],
                      iterator := "item" },
    retry := none, label := none }

/-- Handler results used by the collect witness. -/
def c3Hr : Nat → HandlerResult := fun k =>
  { success := true, value := .vnum (100 + (k : Int)), messages := [],
    fatalError := none, cost := 1 }

/-- Oracle used by the collect witness. -/
def c3Oracle : Oracle := fun _ k _ => .ok (c3Hr k)

/-- Witness for `collect_semantics`: the single-instruction wrap, the
two-element forEach accumulation, and the empty-sequence write, each at a
concrete input. -/
theorem collect_semantics_witness :
    (execSLGo c3Oracle [] [.instr { c3Instr with forEach := none }] []
        (0 + 1 + 1) 0 retryWitCtx 0 =
      (.ok { context := writeToTarget "r" (.vseq [.vnum 100]) retryWitCtx
             flow := .cont
             actions := [{ command := "@ai/gen", success := true,
                           messages := [], fatalError := none, cost := 1,
                           output := none, value := .vnum 100 }]
             cost := 1 }, 0 + 1)) ∧
    (executeForEachInstruction c3Instr c3Oracle retryWitCtx 0 =
      (.ok { context :=
               writeToTarget "r"
                 (.vseq (collectVals c3Hr (fun _ => true)
                   [.vnum 10, .vnum 20] 0)) retryWitCtx
             flow := .cont
             actions := collectLogs c3Instr c3Hr (fun _ => true)
               [.vnum 10, .vnum 20] 0
             cost := collectCost c3Hr (fun _ => true)
               [.vnum 10, .vnum 20] 0 },
       0 + ([Value.vnum 10, Value.vnum 20].filter (fun _ => true)).length,
       collectTrace (fun _ => true) [.vnum 10, .vnum 20] 0 0)) ∧
    (executeForEachInstruction
        { c3Instr with
            forEach := some { iterable := fun _ => .vseq [],
                              iterator := "item" } }
        c3Oracle retryWitCtx 0 =
      (.ok { context := writeToTarget "r" (.vseq []) retryWitCtx,
             flow := .cont, actions := [], cost := 0 }, 0, [])) := by
  refine ⟨?_, ?_, ?_⟩
  · exact collect_semantics.1 { c3Instr with forEach := none } c3Oracle []
      [] retryWitCtx 0 0 (c3Hr 0) "r" rfl rfl rfl rfl rfl rfl rfl rfl
      (by decide) (by decide) (by decide)
  · exact (collect_semantics.2.1 c3Instr
      { iterable := fun _ => .vseq [.vnum 10, .vnum 20], iterator := "item" }
      c3Oracle retryWitCtx 0 "r" [.vnum 10, .vnum 20] c3Hr (fun _ => true)
      rfl rfl rfl rfl rfl (by decide) (by decide) (by decide)
      (fun _ _ => rfl) (fun _ => rfl) (fun _ => rfl)
      (fun _ _ _ => rfl)).1
  · exact collect_semantics.2.2
      { c3Instr with
          forEach := some { iterable := fun _ => .vseq [],
                            iterator := "item" } }
      { iterable := fun _ => .vseq [], iterator := "item" }
      c3Oracle retryWitCtx 0 "r" rfl rfl rfl

/-- The seven system variable keys, as written into scope. -/
def sysVarNames : List String :=
  ["$index", "$count", "$length", "$first", "$last", "$odd", "$even"]

/-- The values the seven system variables resolve to in a scope chain when
they describe original position `i` of a sequence of total length `L`. -/
def sysVarsAt (sc : ScopeChain) (i L : Nat) : Prop :=
  lookupScope "$index" sc = some (.vnum i) ∧
  lookupScope "$count" sc = some (.vnum (i + 1)) ∧
  lookupScope "$length" sc = some (.vnum L) ∧
  lookupScope "$first" sc = some (.vbool (i == 0)) ∧
  lookupScope "$last" sc = some (.vbool ((i : Int) == (L : Int) - 1)) ∧
  lookupScope "$odd" sc = some (.vbool ((i + 1) % 2 == 1)) ∧
  lookupScope "$even" sc = some (.vbool ((i + 1) % 2 == 0))

theorem lookupScope_write_other {k k2 : String} (h : k ≠ k2) (v : Value)
    (sc : ScopeChain) : lookupScope k (write k2 v sc) = lookupScope k sc := by
  have hf : ∀ f : Frame, lookupA k (writeFrame k2 v f) = lookupA k f := by
    intro f
    induction f with
    | nil => simp [writeFrame, lookupA, h]
    | cons p rest ih =>
      obtain ⟨k3, v3⟩ := p
      by_cases hk : k2 = k3
      · subst hk
        simp [writeFrame, lookupA, h]
      · by_cases hkk : k = k3 <;> simp [writeFrame, hk, lookupA, hkk, ih]
  cases sc with
  | nil => simp [write, lookupScope, lookupA, h]
  | cons f rest => simp [write, lookupScope, hf f]

theorem sysvars_entry (iterName : String) (item : Value) (i L : Nat)
    (sc : ScopeChain) (hname : iterName ∉ sysVarNames) :
    sysVarsAt (write iterName item
      (writeSystemVariables i L (pushScope sc))) i L ∧
    lookupScope iterName (write iterName item
      (writeSystemVariables i L (pushScope sc))) = some item := by
  have hmem : ∀ k : String, k ∈ sysVarNames → k ≠ iterName := by
    intro k hk he
    exact hname (he ▸ hk)
  constructor
  · refine ⟨?_, ?_, ?_, ?_, ?_, ?_, ?_⟩
    · rw [lookupScope_write_other (hmem "$index" (by decide))]
      simp only [writeSystemVariables]
      rw [lookupScope_write_other (by decide : ("$index" : String) ≠ "$even"),
        lookupScope_write_other (by decide : ("$index" : String) ≠ "$odd"),
        lookupScope_write_other (by decide : ("$index" : String) ≠ "$last"),
        lookupScope_write_other (by decide : ("$index" : String) ≠ "$first"),
        lookupScope_write_other (by decide : ("$index" : String) ≠ "$length"),
        lookupScope_write_other (by decide : ("$index" : String) ≠ "$count"),
        lookupScope_write_self]
    · rw [lookupScope_write_other (hmem "$count" (by decide))]
      simp only [writeSystemVariables]
      rw [lookupScope_write_other (by decide : ("$count" : String) ≠ "$even"),
        lookupScope_write_other (by decide : ("$count" : String) ≠ "$odd"),
        lookupScope_write_other (by decide : ("$count" : String) ≠ "$last"),
        lookupScope_write_other (by decide : ("$count" : String) ≠ "$first"),
        lookupScope_write_other (by decide : ("$count" : String) ≠ "$length"),
        lookupScope_write_self]
    · rw [lookupScope_write_other (hmem "$length" (by decide))]
      simp only [writeSystemVariables]
      rw [lookupScope_write_other (by decide : ("$length" : String) ≠ "$even"),
        lookupScope_write_other (by decide : ("$length" : String) ≠ "$odd"),
        lookupScope_write_other (by decide : ("$length" : String) ≠ "$last"),
        lookupScope_write_other (by decide : ("$length" : String) ≠ "$first"),
        lookupScope_write_self]
    · rw [lookupScope_write_other (hmem "$first" (by decide))]
      simp only [writeSystemVariables]
      rw [lookupScope_write_other (by decide : ("$first" : String) ≠ "$even"),
        lookupScope_write_other (by decide : ("$first" : String) ≠ "$odd"),
        lookupScope_write_other (by decide : ("$first" : String) ≠ "$last"),
        lookupScope_write_self]
    · rw [lookupScope_write_other (hmem "$last" (by decide))]
      simp only [writeSystemVariables]
      rw [lookupScope_write_other (by decide : ("$last" : String) ≠ "$even"),
        lookupScope_write_other (by decide : ("$last" : String) ≠ "$odd"),
        lookupScope_write_self]
    · rw [lookupScope_write_other (hmem "$odd" (by decide))]
      simp only [writeSystemVariables]
      rw [lookupScope_write_other (by decide : ("$odd" : String) ≠ "$even"),
        lookupScope_write_self]
    · rw [lookupScope_write_other (hmem "$even" (by decide))]
      simp only [writeSystemVariables]
      rw [lookupScope_write_self]
  · exact lookupScope_write_self _ _ _

/-- The log entries a body execution contributed (none for a thrown
error). -/
def actionsOfRes : Except String SLOut → List ActionLog
  | .ok r => r.actions
  | .error _ => []

theorem feBlockGo_trace (cond : Option Expr) (iterName : String)
    (body : Ctx → Nat → (Except String SLOut) × Nat) (L : Nat)
    (hname : iterName ∉ sysVarNames) :
    ∀ (xs : List Value) (idx : Nat) (ctx : Ctx) (n : Nat),
      ∀ p ∈ (feBlockGo cond iterName body L xs idx ctx n).2.2,
        ∃ j item, p.1 = idx + j ∧ xs[j]? = some item ∧
          sysVarsAt p.2.1 p.1 L ∧
          lookupScope iterName p.2.1 = some item := by
  intro xs
  induction xs with
  | nil =>
    intro idx ctx n p hp
    simp [feBlockGo] at hp
  | cons x rest ih =>
    intro idx ctx n p hp
    simp only [feBlockGo] at hp
    split at hp
    · split at hp
      · simp only [List.mem_singleton] at hp
        subst hp
        exact ⟨0, x, by simp, by simp,
          (sysvars_entry iterName x idx L ctx.scopeChain hname).1,
          (sysvars_entry iterName x idx L ctx.scopeChain hname).2⟩
      · split at hp
        · simp only [List.mem_cons] at hp
          rcases hp with hp | hp
          · subst hp
            exact ⟨0, x, by simp, by simp,
              (sysvars_entry iterName x idx L ctx.scopeChain hname).1,
              (sysvars_entry iterName x idx L ctx.scopeChain hname).2⟩
          · obtain ⟨j, item, hj, hitem, hsys, hlook⟩ := ih (idx + 1) _ _ p hp
            exact ⟨j + 1, item, by omega, by simpa using hitem, hsys, hlook⟩
        · simp only [List.mem_singleton] at hp
          subst hp
          exact ⟨0, x, by simp, by simp,
            (sysvars_entry iterName x idx L ctx.scopeChain hname).1,
            (sysvars_entry iterName x idx L ctx.scopeChain hname).2⟩
    · obtain ⟨j, item, hj, hitem, hsys, hlook⟩ := ih (idx + 1) _ _ p hp
      exact ⟨j + 1, item, by omega, by simpa using hitem, hsys, hlook⟩

theorem feBlockGo_trace_mono (cond : Option Expr) (iterName : String)
    (body : Ctx → Nat → (Except String SLOut) × Nat) (L : Nat) :
    ∀ (xs : List Value) (idx : Nat) (ctx : Ctx) (n : Nat),
      (∀ p ∈ (feBlockGo cond iterName body L xs idx ctx n).2.2,
        idx ≤ p.1) ∧
      List.Pairwise (· < ·)
        ((feBlockGo cond iterName body L xs idx ctx n).2.2.map
          (fun p => p.1)) := by
  intro xs
  induction xs with
  | nil =>
    intro idx ctx n
    simp [feBlockGo]
  | cons x rest ih =>
    intro idx ctx n
    constructor
    · intro p hp
      simp only [feBlockGo] at hp
      split at hp
      · split at hp
        · simp only [List.mem_singleton] at hp
          subst hp
          exact Nat.le_refl idx
        · split at hp
          · simp only [List.mem_cons] at hp
            rcases hp with hp | hp
            · subst hp
              exact Nat.le_refl idx
            · have := (ih (idx + 1) _ _).1 p hp
              omega
          · simp only [List.mem_singleton] at hp
            subst hp
            exact Nat.le_refl idx
      · have := (ih (idx + 1) _ _).1 p hp
        omega
    · simp only [feBlockGo]
      split
      · split
        · simp
        · rename_i r n2 heq2
          split
          · simp only [List.map_cons]
            refine List.Pairwise.cons ?_ ((ih (idx + 1) _ _).2)
            intro b hb
            simp only [List.mem_map] at hb
            obtain ⟨p, hp, hpb⟩ := hb
            have := (ih (idx + 1) _ _).1 p hp
            omega
          · simp
      · exact (ih (idx + 1) _ _).2

theorem feBlockGo_trace_all (iterName : String)
    (body : Ctx → Nat → (Except String SLOut) × Nat) (L : Nat) :
    ∀ (xs : List Value) (idx : Nat) (ctx : Ctx) (n : Nat) (r : SLOut),
      (feBlockGo none iterName body L xs idx ctx n).1 = .ok r →
      r.flow = .cont →
      ((feBlockGo none iterName body L xs idx ctx n).2.2.map
        (fun p => p.1)) = List.range' idx xs.length := by
  intro xs
  induction xs with
  | nil =>
    intro idx ctx n r hok hflow
    simp [feBlockGo]
  | cons x rest ih =>
    intro idx ctx n r hok hflow
    simp only [feBlockGo] at hok ⊢
    rw [if_pos trivial] at hok ⊢
    split at hok
    · simp at hok
    · rename_i r0 n2 heq
      cases hflow0 : r0.flow with
      | cont =>
        rw [hflow0] at hok
        dsimp only at hok ⊢
        simp only [List.map_cons]
        cases hrest : (feBlockGo none iterName body L rest (idx + 1)
            { data := r0.context.data,
              scopeChain := popScope r0.context.scopeChain } n2).1 with
        | error e =>
          rw [hrest] at hok
          simp [prependSL] at hok
        | ok out =>
          rw [hrest] at hok
          simp only [prependSL] at hok
          injection hok with h
          rw [← h] at hflow
          dsimp only at hflow
          rw [ih (idx + 1) _ n2 out hrest hflow]
          rw [List.length_cons, List.range'_succ idx rest.length 1]
      | goto t =>
        rw [hflow0] at hok
        dsimp only at hok
        injection hok with h
        rw [← h] at hflow
        simp at hflow
      | exit c =>
        rw [hflow0] at hok
        dsimp only at hok
        injection hok with h
        rw [← h] at hflow
        simp at hflow
      | ret v =>
        rw [hflow0] at hok
        dsimp only at hok
        injection hok with h
        rw [← h] at hflow
        simp at hflow

theorem feBlockGo_all_filtered (c : Expr) (iterName : String)
    (body : Ctx → Nat → (Except String SLOut) × Nat) (L : Nat)
    (hc : ∀ c2, truthy (c c2) = false) :
    ∀ (xs : List Value) (idx : Nat) (ctx : Ctx) (n : Nat),
      feBlockGo (some c) iterName body L xs idx ctx n =
        (.ok { context := ctx, flow := .cont, actions := [], cost := 0 },
         n, []) := by
  intro xs
  induction xs with
  | nil => intro idx ctx n; rfl
  | cons x rest ih =>
    intro idx ctx n
    simp only [feBlockGo]
    rw [hc, if_neg (by simp), popScope_iter_entry, ih]

theorem feBlockGo_actions (cond : Option Expr) (iterName : String)
    (body : Ctx → Nat → (Except String SLOut) × Nat) (L : Nat) :
    ∀ (xs : List Value) (idx : Nat) (ctx : Ctx) (n : Nat) (r : SLOut),
      (feBlockGo cond iterName body L xs idx ctx n).1 = .ok r →
      r.actions = ((feBlockGo cond iterName body L xs idx ctx n).2.2.map
        (fun p => actionsOfRes p.2.2)).flatten := by
  intro xs
  induction xs with
  | nil =>
    intro idx ctx n r hok
    simp only [feBlockGo] at hok ⊢
    injection hok with h
    rw [← h]
    simp
  | cons x rest ih =>
    intro idx ctx n r hok
    simp only [feBlockGo] at hok ⊢
    split at hok
    · rename_i hpass
      rw [if_pos hpass]
      split at hok
      · simp at hok
      · rename_i r0 n2 heq
        cases hflow0 : r0.flow with
        | cont =>
          rw [hflow0] at hok
          dsimp only at hok ⊢
          cases hrest : (feBlockGo cond iterName body L rest (idx + 1)
              { data := r0.context.data,
                scopeChain := popScope r0.context.scopeChain } n2).1 with
          | error e =>
            rw [hrest] at hok
            simp [prependSL] at hok
          | ok out =>
            rw [hrest] at hok
            simp only [prependSL] at hok
            injection hok with h
            rw [← h]
            dsimp only
            rw [ih (idx + 1) _ n2 out hrest]
            simp [actionsOfRes]
        | goto t =>
          rw [hflow0] at hok
          dsimp only at hok ⊢
          injection hok with h
          rw [← h]
          simp [actionsOfRes]
        | exit c2 =>
          rw [hflow0] at hok
          dsimp only at hok ⊢
          injection hok with h
          rw [← h]
          simp [actionsOfRes]
        | ret v =>
          rw [hflow0] at hok
          dsimp only at hok ⊢
          injection hok with h
          rw [← h]
          simp [actionsOfRes]
    · rename_i hpass
      rw [if_neg hpass]
      exact ih (idx + 1) _ n r hok

/-- C2: in a block-level forEach, (1) every body entry for the element at
original position `i` sees `$index = i`, `$count = i+1`, `$length = L` (the
original length), `$first = (i == 0)`, `$last = (i == L-1)`,
`$odd`/`$even` from the parity of `i+1`, and the iterator bound to the
element — all computed from the unfiltered position and length; (2) the
executed positions appear in strictly increasing original order; (3) with
no condition, a normally completing run executes exactly positions
`0..L-1`; (4) an always-falsy condition yields no body entries, no log
entries and an untouched context; (5) the run's log is exactly the
concatenation of the logs of the body entries that ran — filtered-out
elements contribute nothing. -/
theorem foreach_sysvars_spec :
    (∀ (cond : Option Expr) (fe : ForEachModel)
        (body : Ctx → Nat → (Except String SLOut) × Nat) (ctx : Ctx)
        (n : Nat) (xs : List Value),
      fe.iterable ctx = .vseq xs → fe.iterator ∉ sysVarNames →
      ∀ p ∈ (executeForEachWithStatementList cond fe body ctx n).2.2,
        ∃ item, xs[p.1]? = some item ∧ sysVarsAt p.2.1 p.1 xs.length ∧
          lookupScope fe.iterator p.2.1 = some item) ∧
    (∀ (cond : Option Expr) (fe : ForEachModel)
        (body : Ctx → Nat → (Except String SLOut) × Nat) (ctx : Ctx)
        (n : Nat) (xs : List Value),
      fe.iterable ctx = .vseq xs →
      List.Pairwise (· < ·)
        ((executeForEachWithStatementList cond fe body ctx n).2.2.map
          (fun p => p.1))) ∧
    (∀ (fe : ForEachModel)
        (body : Ctx → Nat → (Except String SLOut) × Nat) (ctx : Ctx)
        (n : Nat) (xs : List Value) (r : SLOut),
      fe.iterable ctx = .vseq xs →
      (executeForEachWithStatementList none fe body ctx n).1 = .ok r →
      r.flow = .cont →
      ((executeForEachWithStatementList none fe body ctx n).2.2.map
        (fun p => p.1)) = List.range xs.length) ∧
    (∀ (c : Expr) (fe : ForEachModel)
        (body : Ctx → Nat → (Except String SLOut) × Nat) (ctx : Ctx)
        (n : Nat) (xs : List Value),
      fe.iterable ctx = .vseq xs → (∀ c2, truthy (c c2) = false) →
      executeForEachWithStatementList (some c) fe body ctx n =
        (.ok { context := ctx, flow := .cont, actions := [], cost := 0 },
         n, [])) ∧
    (∀ (cond : Option Expr) (fe : ForEachModel)
        (body : Ctx → Nat → (Except String SLOut) × Nat) (ctx : Ctx)
        (n : Nat) (r : SLOut),
      (executeForEachWithStatementList cond fe body ctx n).1 = .ok r →
      r.actions =
        ((executeForEachWithStatementList cond fe body ctx n).2.2.map
          (fun p => actionsOfRes p.2.2)).flatten) := by
  refine ⟨?_, ?_, ?_, ?_, ?_⟩
  · intro cond fe body ctx n xs hiter hname p hp
    unfold executeForEachWithStatementList at hp
    rw [hiter] at hp
    dsimp only at hp
    cases xs with
    | nil => simp at hp
    | cons x rest =>
      rw [if_neg (by simp)] at hp
      obtain ⟨j, item, hj, hitem, hsys, hlook⟩ :=
        feBlockGo_trace cond fe.iterator body (x :: rest).length hname
          (x :: rest) 0 ctx n p hp
      refine ⟨item, ?_, hsys, hlook⟩
      rw [hj]
      simpa using hitem
  · intro cond fe body ctx n xs hiter
    unfold executeForEachWithStatementList
    rw [hiter]
    dsimp only
    cases xs with
    | nil => simp
    | cons x rest =>
      rw [if_neg (by simp)]
      exact (feBlockGo_trace_mono cond fe.iterator body
        (x :: rest).length (x :: rest) 0 ctx n).2
  · intro fe body ctx n xs r hiter hok hflow
    unfold executeForEachWithStatementList at hok ⊢
    rw [hiter] at hok ⊢
    dsimp only at hok ⊢
    cases xs with
    | nil => simp
    | cons x rest =>
      rw [if_neg (by simp)] at hok ⊢
      rw [feBlockGo_trace_all fe.iterator body (x :: rest).length
        (x :: rest) 0 ctx n r hok hflow]
      rw [List.range_eq_range']
  · intro c fe body ctx n xs hiter hc
    unfold executeForEachWithStatementList
    rw [hiter]
    dsimp only
    cases xs with
    | nil => simp
    | cons x rest =>
      rw [if_neg (by simp)]
      exact feBlockGo_all_filtered c fe.iterator body (x :: rest).length hc
        (x :: rest) 0 ctx n
  · intro cond fe body ctx n r hok
    unfold executeForEachWithStatementList at hok ⊢
    cases hv : fe.iterable ctx with
    | vseq xs =>
      rw [hv] at hok
      dsimp only at hok ⊢
      cases xs with
      | nil =>
        simp only [List.isEmpty_nil, eq_self_iff_true, if_true] at hok ⊢
        injection hok with h
        rw [← h]
        simp
      | cons x rest =>
        rw [if_neg (by simp)] at hok ⊢
        exact feBlockGo_actions cond fe.iterator body (x :: rest).length
          (x :: rest) 0 ctx n r hok
    | vnull => rw [hv] at hok; simp at hok
    | vundefined => rw [hv] at hok; simp at hok
    | vbool b => rw [hv] at hok; simp at hok
    | vnum m => rw [hv] at hok; simp at hok
    | vstr s => rw [hv] at hok; simp at hok
    | vobj fields => rw [hv] at hok; simp at hok

/-- ForEach model used by the system-variable witness: a four-element
sequence bound to `item`. -/
def c2FE : ForEachModel :=
  { iterable := fun _ =>
      .vseq [.vstr "a", .vstr "b", .vstr "c", .vstr "d"],
    iterator := "item" }

/-- Trivial body used by the system-variable witness. -/
def c2Body : Ctx → Nat → (Except String SLOut) × Nat := fun c m =>
  (.ok { context := c, flow := .cont, actions := [], cost := 0 }, m)

/-- Witness for `foreach_sysvars_spec`: over a four-element sequence with
no condition the executed positions are exactly `0,1,2,3`, and with an
always-falsy condition the run yields no entries and leaves the context
untouched. -/
theorem foreach_sysvars_spec_witness :
    ((executeForEachWithStatementList none c2FE c2Body retryWitCtx 0).2.2.map
      (fun p => p.1)) = List.range 4 ∧
    executeForEachWithStatementList (some (fun _ => .vbool false)) c2FE
        c2Body retryWitCtx 0 =
      (.ok { context := retryWitCtx, flow := .cont, actions := [],
             cost := 0 }, 0, []) := by
  constructor
  · have h := foreach_sysvars_spec.2.2.1 c2FE c2Body retryWitCtx 0
      [.vstr "a", .vstr "b", .vstr "c", .vstr "d"]
      { context := retryWitCtx, flow := .cont, actions := [], cost := 0 }
      rfl rfl rfl
    simpa using h
  · exact foreach_sysvars_spec.2.2.2.1 (fun _ => .vbool false) c2FE c2Body
      retryWitCtx 0 [.vstr "a", .vstr "b", .vstr "c", .vstr "d"] rfl
      (fun _ => rfl)

theorem everyIndexMatches_append (p : List Nat) (i : Nat) :
    everyIndexMatches p (p ++ [i]) = true := by
  induction p with
  | nil => rfl
  | cons a rest ih => simp [everyIndexMatches, ih]

theorem getD_append_self (p : List Nat) (i : Nat) :
    (p ++ [i]).getD p.length 0 = i := by
  induction p with
  | nil => rfl
  | cons a rest ih => exact ih

theorem everyIndexMatches_extends (p : List Nat) :
    ∀ l : List Nat, everyIndexMatches p l = true →
      l.length = p.length + 1 → l = p ++ [l.getD p.length 0] := by
  induction p with
  | nil =>
    intro l hm hl
    match l with
    | [x] => rfl
  | cons a rest ih =>
    intro l hm hl
    match l with
    | b :: l2 =>
      simp only [everyIndexMatches, Bool.and_eq_true, beq_iff_eq] at hm
      obtain ⟨hab, hm2⟩ := hm
      subst hab
      have hl2 : l2.length = rest.length + 1 := by
        simp only [List.length_cons] at hl
        omega
      have hrec := ih l2 hm2 hl2
      rw [List.cons_append]
      congr 1

/-- C4: (1) `resolveGoto` answers a local jump to index `i` exactly when
the label index maps the target to the current list's path extended by the
single segment `i`; (2) a locally resolved goto resumes the same statement
list at that index — backward included, the index is arbitrary; (3) an
unresolvable goto bubbles out of the list as a goto flow signal; (4) the
enclosing list repeats the check on a goto bubbling out of a nested block,
resuming locally or bubbling further; (5) a goto that reaches the program
root unresolved makes the run fail with the unknown-label error instead of
producing a run result. -/
theorem goto_resolution_spec :
    (∀ (target : String) (li : LabelIdx) (path : List Nat) (i : Nat),
      resolveGoto target li path = .localJump i ↔
        lookupA target li = some (path ++ [i])) ∧
    (∀ (stmts : List Stmt) (path : List Nat) (li : LabelIdx) (fuel i : Nat)
        (ctx : Ctx) (n n2 : Nat) (oracle : Oracle) (ins : InstrModel)
        (r : StatementResult) (target : String) (idx : Nat),
      stmts[i]? = some (.instr ins) →
      ins.forEach = none → ins.condition = none → ins.collect = none →
      executeWithRetry ins oracle n ctx = (.ok r, n2) →
      r.flow = .goto target →
      resolveGoto target li path = .localJump idx →
      execSLGo oracle li stmts path (fuel + 1) i ctx n =
        (prependOne r.log r.cost
          (execSLGo oracle li stmts path fuel idx r.context n2).1,
         (execSLGo oracle li stmts path fuel idx r.context n2).2)) ∧
    (∀ (stmts : List Stmt) (path : List Nat) (li : LabelIdx) (fuel i : Nat)
        (ctx : Ctx) (n n2 : Nat) (oracle : Oracle) (ins : InstrModel)
        (r : StatementResult) (target : String),
      stmts[i]? = some (.instr ins) →
      ins.forEach = none → ins.condition = none → ins.collect = none →
      executeWithRetry ins oracle n ctx = (.ok r, n2) →
      r.flow = .goto target →
      resolveGoto target li path = .nonLocal →
      execSLGo oracle li stmts path (fuel + 1) i ctx n =
        (.ok { context := r.context, flow := .goto target,
               actions := [r.log], cost := r.cost }, n2)) ∧
    (∀ (stmts : List Stmt) (path : List Nat) (li : LabelIdx) (fuel i : Nat)
        (ctx : Ctx) (n n2 : Nat) (oracle : Oracle) (body : List Stmt)
        (r : SLOut) (target : String),
      stmts[i]? = some (.block none none body) →
      execSLGo oracle li body (path ++ [i]) fuel 0 ctx n = (.ok r, n2) →
      r.flow = .goto target →
      (∀ idx : Nat, resolveGoto target li path = .localJump idx →
        execSLGo oracle li stmts path (fuel + 1) i ctx n =
          (prependSL r
            (execSLGo oracle li stmts path fuel idx r.context n2).1,
           (execSLGo oracle li stmts path fuel idx r.context n2).2)) ∧
      (resolveGoto target li path = .nonLocal →
        execSLGo oracle li stmts path (fuel + 1) i ctx n =
          (.ok { context := r.context, flow := .goto target,
                 actions := r.actions, cost := r.cost }, n2))) ∧
    (∀ (fuel : Nat) (program : List Stmt) (ctx : Ctx) (oracle : Oracle)
        (r : SLOut) (n : Nat) (target : String),
      execSLGo oracle (buildEnhancedLabelIndex program) program [] fuel 0
        ctx 0 = (.ok r, n) →
      r.flow = .goto target →
      executeProgram fuel program ctx oracle =
        (.error ("Unknown label: " ++ target), n)) := by
  refine ⟨?_, ?_, ?_, ?_, ?_⟩
  · intro target li path i
    constructor
    · intro h
      unfold resolveGoto at h
      cases hlk : lookupA target li with
      | none => rw [hlk] at h; simp at h
      | some lp =>
        rw [hlk] at h
        dsimp only at h
        split at h
        · rename_i hcond
          simp only [Bool.and_eq_true, decide_eq_true_eq] at hcond
          obtain ⟨hlen, hev⟩ := hcond
          have := everyIndexMatches_extends path lp hev hlen
          injection h with h2
          rw [this, h2]
        · split at h
          · rename_i hroot
            simp only [Bool.and_eq_true, decide_eq_true_eq] at hroot
            obtain ⟨hd, hl1⟩ := hroot
            have hpath : path = [] := List.length_eq_zero.mp hd
            subst hpath
            match lp, hl1 with
            | [x], _ =>
              injection h with h2
              simp only [List.getD, List.get?] at h2
              simp [← h2]
          · exact absurd h (by simp)
    · intro h
      unfold resolveGoto
      rw [h]
      dsimp only
      rw [if_pos]
      · rw [getD_append_self]
      · simp [everyIndexMatches_append]
  · intro stmts path li fuel i ctx n n2 oracle ins r target idx hstmt hfe
      hcond hcol hwr hflow hres
    rw [execSLGo, hstmt]
    dsimp only
    rw [hfe]
    dsimp only
    rw [hcond]
    dsimp only
    rw [if_pos rfl, hwr]
    dsimp only
    rw [hcol]
    dsimp only
    rw [hflow]
    dsimp only
    rw [hres]
  · intro stmts path li fuel i ctx n n2 oracle ins r target hstmt hfe hcond
      hcol hwr hflow hres
    rw [execSLGo, hstmt]
    dsimp only
    rw [hfe]
    dsimp only
    rw [hcond]
    dsimp only
    rw [if_pos rfl, hwr]
    dsimp only
    rw [hcol]
    dsimp only
    rw [hflow]
    dsimp only
    rw [hres]
  · intro stmts path li fuel i ctx n n2 oracle body r target hstmt hrun
      hflow
    constructor
    · intro idx hres
      rw [execSLGo, hstmt]
      try dsimp only
      rw [hrun]
      rw [if_pos rfl]
      try dsimp only
      rw [hflow]
      try dsimp only
      rw [hres]
    · intro hres
      rw [execSLGo, hstmt]
      try dsimp only
      rw [hrun]
      rw [if_pos rfl]
      try dsimp only
      rw [hflow]
      try dsimp only
      rw [hres]
  · intro fuel program ctx oracle r n target hok hflow
    unfold executeProgram
    dsimp only
    rw [hok]
    try dsimp only
    rw [hflow]

/-- Instruction used by the goto witness: a flow/goto command. -/
def gotoInstr : InstrModel :=
  { id := "@flow/goto", output := none, collect := none, condition := none,
    forEach := none, retry := none, label := none }

/-- Oracle used by the goto witness: the handler returns a goto result for
the label `nowhere`. -/
def gOracle : Oracle := fun _ _ _ =>
  .ok { success := true,
        value := .vobj [("type", .vstr "goto"), ("target", .vstr "nowhere")],
        messages := [], fatalError := none, cost := 0 }

/-- Oracle used by the goto witness: the handler returns a goto result for
the label `start`. -/
def gsOracle : Oracle := fun _ _ _ =>
  .ok { success := true,
        value := .vobj [("type", .vstr "goto"), ("target", .vstr "start")],
        messages := [], fatalError := none, cost := 0 }

/-- Log entry the goto handler produces in the witness run. -/
def gsLog : ActionLog :=
  { command := "@flow/goto", success := true, messages := [],
    fatalError := none, cost := 0, output := none, value := .vundefined }

/-- Witness for `goto_resolution_spec`: resolution is local exactly for a
one-segment extension of the current path (backward index 0 included), a
locally resolved goto resumes at that index, and a program whose only
statement jumps to an unknown label fails with the unknown-label error. -/
theorem goto_resolution_spec_witness :
    resolveGoto "start" [("start", [0])] [] = .localJump 0 ∧
    execSLGo gsOracle [("start", [0])] [.instr gotoInstr] [] (1 + 1) 0
        retryWitCtx 0 =
      (prependOne (gsLog) 0
        (execSLGo gsOracle [("start", [0])] [.instr gotoInstr] [] 1 0
          retryWitCtx 1).1,
       (execSLGo gsOracle [("start", [0])] [.instr gotoInstr] [] 1 0
          retryWitCtx 1).2) ∧
    executeProgram 2 [.instr gotoInstr] retryWitCtx gOracle =
      (.error ("Unknown label: " ++ "nowhere"), 1) := by
  refine ⟨?_, ?_, ?_⟩
  · exact (goto_resolution_spec.1 "start" [("start", [0])] [] 0).mpr rfl
  · exact goto_resolution_spec.2.1 [.instr gotoInstr] [] [("start", [0])]
      1 0 retryWitCtx 0 1 gsOracle gotoInstr
      { context := retryWitCtx, flow := .goto "start",
        log := gsLog, cost := 0 }
      "start" 0 rfl rfl rfl rfl rfl rfl rfl
  · exact goto_resolution_spec.2.2.2.2 2 [.instr gotoInstr] retryWitCtx
      gOracle
      { context := retryWitCtx, flow := .goto "nowhere",
        actions := [gsLog], cost := 0 }
      1 "nowhere"
      (by simp only [buildEnhancedLabelIndex, walkStatements, execSLGo]
          rfl)
      rfl

end Massivoto
